import Mathlib

/-!
A verification development for the `rust-urlpattern` crate (an implementation
of the URLPattern standard).  The Rust sources under `src/` are shallowly
embedded: strings are modelled as `List Char` (all offsets are code points),
machine integers as `Nat`, fallible code as `Except`, and Rust panics as an
explicit outcome constructor where they are reachable.  Definitions mirror
the structure of the Rust functions they embed; functions of the repository
whose bodies are not part of the sources (the `url` crate callbacks, the
`RegExp` engine, `is_valid_name_codepoint`, the `Display` instance of
`PartModifier`, the `Options` presets) are modelled from the specification
and are marked as such in their doc comments.
-/

set_option maxRecDepth 10000

namespace URLPattern

/-- Error type of the crate (src/error.rs, `ParseError` in older modules).
Only the distinctions the embedded code makes are kept. -/
inductive ParseError where
  | tokenize
  | url
  | someRandomOtherError
  | regExp
  | duplicateName (nm : List Char)
  deriving Repr, DecidableEq

/-- Ref: parser.rs `PartType`. -/
inductive PartType where
  | fixedText
  | regexp
  | segmentWildcard
  | fullWildcard
  deriving Repr, DecidableEq

/-- Ref: parser.rs `PartModifier`. -/
inductive PartModifier where
  | none
  | optional
  | zeroOrMore
  | oneOrMore
  deriving Repr, DecidableEq

/-- Modelled from the spec: the `Display` impl of `PartModifier` is not part
of the given sources (component.rs formats parts with `{}`); per the spec the
modifier suffix characters are none → "", optional → "?", zero-or-more → "*",
one-or-more → "+". -/
def PartModifier.str : PartModifier → List Char
  | .none => []
  | .optional => ['?']
  | .zeroOrMore => ['*']
  | .oneOrMore => ['+']

/-- Ref: parser.rs `Part`.  The literal prefix and suffix fields are named
`pre` and `suf` here. -/
structure Part where
  kind : PartType
  value : List Char
  modifier : PartModifier
  name : List Char
  pre : List Char
  suf : List Char
  deriving Repr, DecidableEq

/-- Ref: parser.rs `Part::new`. -/
def Part.mk' (kind : PartType) (value : List Char) (modifier : PartModifier) : Part :=
  { kind := kind, value := value, modifier := modifier, name := [], pre := [], suf := [] }

/-- Ref: parser.rs `Options`.  `delimiterCodePoint` and `prefixCodePoint`
hold at most one ASCII code point (empty = none). -/
structure Options where
  delimiterCodePoint : List Char
  prefixCodePoint : List Char
  deriving Repr, DecidableEq

/-- The default options (protocol, username, password, port, search, hash). -/
def Options.default : Options := { delimiterCodePoint := [], prefixCodePoint := [] }

/-- Ref: parser.rs `FULL_WILDCARD_REGEXP_VALUE` = ".*". -/
def fullWildcardRegexpValue : List Char := ['.', '*']

/-- The escape set of parser.rs `escape_regexp_string`. -/
def regexpEscapeSet : List Char :=
  ['.', '+', '*', '?', '^', '$', '\x7b', '\x7d', '(', ')', '[', ']', '|', '/', '\\']

/-- Ref: parser.rs `escape_regexp_string`.  The Rust function asserts the
input is ASCII and then treats every char uniformly; the assert is dropped
(the data-model invariant keeps all pattern text ASCII). -/
def escape_regexp_string : List Char → List Char
  | [] => []
  | c :: rest =>
      (if c ∈ regexpEscapeSet then ['\\', c] else [c]) ++ escape_regexp_string rest

/-- Ref: parser.rs `Options::generate_segment_wildcard_regexp`:
`format!("[^{}]+?", escape_regexp_string(delimiter))`. -/
def generate_segment_wildcard_regexp (o : Options) : List Char :=
  ['[', '^'] ++ escape_regexp_string o.delimiterCodePoint ++ [']', '+', '?']

/-- The regex chunk a single part contributes, from the body of the loop of
component.rs `generate_regular_expression_and_name_list`. -/
def partRegexChunk (o : Options) (p : Part) : List Char :=
  if p.kind = PartType.fixedText then
    if p.modifier = PartModifier.none then
      escape_regexp_string p.value
    else
      ['(', '?', ':'] ++ escape_regexp_string p.value ++ [')'] ++ p.modifier.str
  else
    let regexpValue : List Char :=
      if p.kind = PartType.segmentWildcard then generate_segment_wildcard_regexp o
      else if p.kind = PartType.fullWildcard then fullWildcardRegexpValue
      else p.value
    if p.pre = [] ∧ p.suf = [] then
      if p.modifier = PartModifier.none ∨ p.modifier = PartModifier.optional then
        ['('] ++ regexpValue ++ [')'] ++ p.modifier.str
      else
        ['(', '(', '?', ':'] ++ regexpValue ++ [')'] ++ p.modifier.str ++ [')']
    else if p.modifier = PartModifier.none ∨ p.modifier = PartModifier.optional then
      ['(', '?', ':'] ++ escape_regexp_string p.pre ++ ['('] ++ regexpValue ++ [')']
        ++ escape_regexp_string p.suf ++ [')'] ++ p.modifier.str
    else
      ['(', '?', ':'] ++ escape_regexp_string p.pre
        ++ ['(', '(', '?', ':'] ++ regexpValue ++ [')', '(', '?', ':']
        ++ escape_regexp_string p.suf ++ escape_regexp_string p.pre
        ++ ['(', '?', ':'] ++ regexpValue ++ [')', ')', '*', ')']
        ++ escape_regexp_string p.suf ++ [')']
        ++ (if p.modifier = PartModifier.zeroOrMore then ['?'] else [])

/-- Ref: component.rs `generate_regular_expression_and_name_list`.  The
imperative loop pushes onto `result` (seeded with "^") and `name_list`; it is
rendered as a left fold, and '$' is appended at the end. -/
def generate_regular_expression_and_name_list (parts : List Part) (o : Options) :
    List Char × List (List Char) :=
  let step := fun (acc : List Char × List (List Char)) (p : Part) =>
    (acc.1 ++ partRegexChunk o p,
     if p.kind = PartType.fixedText then acc.2 else acc.2 ++ [p.name])
  let acc := parts.foldl step (['^'], [])
  (acc.1 ++ ['$'], acc.2)

theorem generate_regexp_foldl_eq (parts : List Part) (o : Options)
    (b : List Char) (ns : List (List Char)) :
    parts.foldl (fun (acc : List Char × List (List Char)) (p : Part) =>
      (acc.1 ++ partRegexChunk o p,
       if p.kind = PartType.fixedText then acc.2 else acc.2 ++ [p.name])) (b, ns)
    = (b ++ (parts.map (partRegexChunk o)).flatten,
       ns ++ (parts.filter (fun p => p.kind ≠ PartType.fixedText)).map Part.name) := by
  induction parts generalizing b ns with
  | nil => simp
  | cons p rest ih =>
      simp only [List.foldl_cons, ih, List.map_cons, List.flatten_cons, List.filter_cons]
      by_cases h : p.kind = PartType.fixedText <;> simp [h, List.append_assoc]

/-- The generated regex source decomposes as `^` ++ chunks ++ `$`. -/
theorem generate_regexp_shape (parts : List Part) (o : Options) :
    (generate_regular_expression_and_name_list parts o).1
      = '^' :: (parts.map (partRegexChunk o)).flatten ++ ['$'] := by
  simp [generate_regular_expression_and_name_list, generate_regexp_foldl_eq]

/-- C4: For every part list and component options, the regex source produced
by the synthesizer starts with the character '^' and ends with the character
'$'. -/
theorem regex_source_anchored (parts : List Part) (o : Options) :
    (generate_regular_expression_and_name_list parts o).1.head? = some '^' ∧
    (generate_regular_expression_and_name_list parts o).1.getLast? = some '$' := by
  rw [generate_regexp_shape]
  constructor
  · rfl
  · rw [List.getLast?_concat]

/-- Number of capture groups in a regex source: occurrences of '(' that are
neither escaped by a preceding backslash nor followed by '?'.  (In every
source the synthesizer emits, '(' inside a character class is escaped, so no
class tracking is needed.) -/
def captureCount : List Char → Nat
  | [] => 0
  | [c] => if c = '(' then 1 else 0
  | c :: d :: rest =>
      if c = '\\' then captureCount rest
      else if c = '(' then
        (if d = '?' then captureCount rest else 1 + captureCount (d :: rest))
      else captureCount (d :: rest)

/-- Well-formedness of an embedded regexp value as the strict tokenizer
guarantees it (tokenizer.rs, the '(' scan): every backslash escapes a
following code point and every bare '(' is followed by '?'. -/
def valueWf : List Char → Bool
  | [] => true
  | [c] => !(c = '\\' || c = '(')
  | c :: d :: rest =>
      if c = '\\' then valueWf rest
      else if c = '(' then (d = '?' && valueWf rest)
      else valueWf (d :: rest)

theorem captureCount_cons_neutral {c : Char} (t : List Char)
    (h1 : c ≠ '\\') (h2 : c ≠ '(') : captureCount (c :: t) = captureCount t := by
  cases t with
  | nil => simp [captureCount, h2]
  | cons d r => simp [captureCount, h1, h2]

theorem captureCount_esc (c : Char) (t : List Char) :
    captureCount ('\\' :: c :: t) = captureCount t := by
  simp [captureCount]

theorem captureCount_open_q (t : List Char) :
    captureCount ('(' :: '?' :: t) = captureCount t := by
  simp [captureCount]

theorem captureCount_open {d : Char} (t : List Char) (h : d ≠ '?') :
    captureCount ('(' :: d :: t) = 1 + captureCount (d :: t) := by
  simp [captureCount, h]

theorem captureCount_wf_append (v : List Char) (t : List Char)
    (h : valueWf v = true) : captureCount (v ++ t) = captureCount t := by
  induction v using valueWf.induct with
  | case1 => simp
  | case2 c =>
      simp only [valueWf, Bool.not_eq_true', Bool.or_eq_false_iff,
        decide_eq_false_iff_not] at h
      simpa using captureCount_cons_neutral t h.1 h.2
  | case3 d rest ih =>
      simp only [valueWf, if_pos rfl] at h
      simpa using (captureCount_esc d (rest ++ t)).trans (ih h)
  | case4 d rest hne ih =>
      by_cases hd : d = '?'
      · subst hd
        have hrest : valueWf rest = true := by simpa [valueWf] using h
        simpa using (captureCount_open_q (rest ++ t)).trans (ih hrest)
      · exfalso
        simp [valueWf, hd] at h
  | case5 c d rest hc1 hc2 ih =>
      simp only [valueWf, if_neg hc1, if_neg hc2] at h
      have := ih h
      simpa using (captureCount_cons_neutral ((d :: rest) ++ t) hc1 hc2).trans this

theorem captureCount_escaped_append (s : List Char) (t : List Char) :
    captureCount (escape_regexp_string s ++ t) = captureCount t := by
  induction s with
  | nil => simp [escape_regexp_string]
  | cons c s ih =>
      simp only [escape_regexp_string]
      by_cases hc : c ∈ regexpEscapeSet
      · simp only [hc, if_pos, List.append_assoc, List.cons_append, List.nil_append]
        rw [captureCount_esc, ih]
      · have h1 : c ≠ '\\' := by rintro rfl; exact hc (by simp [regexpEscapeSet])
        have h2 : c ≠ '(' := by rintro rfl; exact hc (by simp [regexpEscapeSet])
        simp only [hc, if_neg, not_false_iff, List.append_assoc, List.cons_append,
          List.nil_append]
        rw [captureCount_cons_neutral _ h1 h2, ih]

theorem captureCount_seg_append (o : Options) (t : List Char) :
    captureCount (generate_segment_wildcard_regexp o ++ t) = captureCount t := by
  simp only [generate_segment_wildcard_regexp, List.append_assoc, List.cons_append,
    List.nil_append]
  rw [captureCount_cons_neutral _ (by decide) (by decide),
    captureCount_cons_neutral _ (by decide) (by decide),
    captureCount_escaped_append,
    captureCount_cons_neutral _ (by decide) (by decide),
    captureCount_cons_neutral _ (by decide) (by decide),
    captureCount_cons_neutral _ (by decide) (by decide)]

theorem captureCount_modstr_append (m : PartModifier) (t : List Char) :
    captureCount (m.str ++ t) = captureCount t := by
  cases m <;>
    simp only [PartModifier.str, List.nil_append, List.cons_append] <;>
    first
      | rfl
      | rw [captureCount_cons_neutral _ (by decide) (by decide)]

theorem captureCount_neutral_append (s t : List Char)
    (h : ∀ c ∈ s, ¬ c = '\\' ∧ ¬ c = '(') :
    captureCount (s ++ t) = captureCount t := by
  induction s with
  | nil => rfl
  | cons c s ih =>
      have hc := h c (by simp)
      rw [List.cons_append, captureCount_cons_neutral _ hc.1 hc.2]
      exact ih (fun d hd => h d (by simp [hd]))

theorem captureCount_group (rv : List Char) (Y : List Char)
    (hrv : captureCount (rv ++ ')' :: Y) = captureCount (')' :: Y))
    (hh : rv.head? ≠ some '?') :
    captureCount ('(' :: (rv ++ ')' :: Y)) = 1 + captureCount Y := by
  cases rv with
  | nil =>
      rw [List.nil_append, captureCount_open _ (by decide),
        captureCount_cons_neutral _ (by decide) (by decide)]
  | cons x v =>
      have hx : x ≠ '?' := by simpa using hh
      rw [List.cons_append, captureCount_open _ hx, ← List.cons_append, hrv,
        captureCount_cons_neutral _ (by decide) (by decide)]

theorem captureCount_shape_bare (rv ms t : List Char)
    (hrv : ∀ Y, captureCount (rv ++ Y) = captureCount Y)
    (hh : rv.head? ≠ some '?')
    (hms : ∀ Y, captureCount (ms ++ Y) = captureCount Y) :
    captureCount ((['('] ++ rv ++ [')'] ++ ms) ++ t) = 1 + captureCount t := by
  have : (['('] ++ rv ++ [')'] ++ ms) ++ t = '(' :: (rv ++ ')' :: (ms ++ t)) := by
    simp
  rw [this, captureCount_group rv (ms ++ t) (by rw [hrv]) hh, hms]

theorem captureCount_shape_bare_rep (rv ms t : List Char)
    (hrv : ∀ Y, captureCount (rv ++ Y) = captureCount Y)
    (hms : ∀ Y, captureCount (ms ++ Y) = captureCount Y) :
    captureCount ((['(', '(', '?', ':'] ++ rv ++ [')'] ++ ms ++ [')']) ++ t)
      = 1 + captureCount t := by
  have : (['(', '(', '?', ':'] ++ rv ++ [')'] ++ ms ++ [')']) ++ t
      = '(' :: '(' :: '?' :: ':' :: (rv ++ ')' :: (ms ++ ')' :: t)) := by simp
  rw [this, captureCount_open _ (by decide), captureCount_open_q,
    captureCount_cons_neutral _ (by decide) (by decide), hrv,
    captureCount_cons_neutral _ (by decide) (by decide), hms,
    captureCount_cons_neutral _ (by decide) (by decide)]

theorem captureCount_shape_ps (pr sf rv ms t : List Char)
    (hrv : ∀ Y, captureCount (rv ++ Y) = captureCount Y)
    (hh : rv.head? ≠ some '?')
    (hms : ∀ Y, captureCount (ms ++ Y) = captureCount Y) :
    captureCount ((['(', '?', ':'] ++ escape_regexp_string pr ++ ['('] ++ rv ++ [')']
        ++ escape_regexp_string sf ++ [')'] ++ ms) ++ t) = 1 + captureCount t := by
  have : (['(', '?', ':'] ++ escape_regexp_string pr ++ ['('] ++ rv ++ [')']
        ++ escape_regexp_string sf ++ [')'] ++ ms) ++ t
      = '(' :: '?' :: ':' :: (escape_regexp_string pr
          ++ '(' :: (rv ++ ')' :: (escape_regexp_string sf ++ ')' :: (ms ++ t)))) := by
    simp
  rw [this, captureCount_open_q, captureCount_cons_neutral _ (by decide) (by decide),
    captureCount_escaped_append,
    captureCount_group rv _ (by rw [hrv]) hh,
    captureCount_escaped_append,
    captureCount_cons_neutral _ (by decide) (by decide), hms]

theorem captureCount_shape_ps_rep (pr sf rv tr t : List Char)
    (hrv : ∀ Y, captureCount (rv ++ Y) = captureCount Y)
    (htr : ∀ Y, captureCount (tr ++ Y) = captureCount Y) :
    captureCount ((['(', '?', ':'] ++ escape_regexp_string pr
        ++ ['(', '(', '?', ':'] ++ rv ++ [')', '(', '?', ':']
        ++ escape_regexp_string sf ++ escape_regexp_string pr
        ++ ['(', '?', ':'] ++ rv ++ [')', ')', '*', ')']
        ++ escape_regexp_string sf ++ [')'] ++ tr) ++ t) = 1 + captureCount t := by
  have : (['(', '?', ':'] ++ escape_regexp_string pr
        ++ ['(', '(', '?', ':'] ++ rv ++ [')', '(', '?', ':']
        ++ escape_regexp_string sf ++ escape_regexp_string pr
        ++ ['(', '?', ':'] ++ rv ++ [')', ')', '*', ')']
        ++ escape_regexp_string sf ++ [')'] ++ tr) ++ t
      = '(' :: '?' :: ':' :: (escape_regexp_string pr
          ++ '(' :: '(' :: '?' :: ':' :: (rv
          ++ ')' :: '(' :: '?' :: ':' :: (escape_regexp_string sf
          ++ (escape_regexp_string pr
          ++ '(' :: '?' :: ':' :: (rv
          ++ ')' :: ')' :: '*' :: ')' :: (escape_regexp_string sf
          ++ ')' :: (tr ++ t))))))) := by simp
  rw [this, captureCount_open_q, captureCount_cons_neutral _ (by decide) (by decide),
    captureCount_escaped_append, captureCount_open _ (by decide), captureCount_open_q,
    captureCount_cons_neutral _ (by decide) (by decide), hrv,
    captureCount_cons_neutral _ (by decide) (by decide), captureCount_open_q,
    captureCount_cons_neutral _ (by decide) (by decide), captureCount_escaped_append,
    captureCount_escaped_append, captureCount_open_q,
    captureCount_cons_neutral _ (by decide) (by decide), hrv,
    captureCount_cons_neutral _ (by decide) (by decide),
    captureCount_cons_neutral _ (by decide) (by decide),
    captureCount_cons_neutral _ (by decide) (by decide),
    captureCount_cons_neutral _ (by decide) (by decide),
    captureCount_escaped_append,
    captureCount_cons_neutral _ (by decide) (by decide), htr]

theorem captureCount_modstr (m : PartModifier) :
    ∀ Y, captureCount (m.str ++ Y) = captureCount Y :=
  fun Y => captureCount_modstr_append m Y

theorem captureCount_dotstar :
    ∀ Y, captureCount (fullWildcardRegexpValue ++ Y) = captureCount Y := by
  intro Y
  exact captureCount_neutral_append _ _ (by decide)

theorem captureCount_seg (o : Options) :
    ∀ Y, captureCount (generate_segment_wildcard_regexp o ++ Y) = captureCount Y :=
  fun Y => captureCount_seg_append o Y

theorem seg_head (o : Options) :
    (generate_segment_wildcard_regexp o).head? = some '[' := rfl

/-- The capture contribution of one part's chunk: zero for fixed text, one
otherwise. -/
theorem captureCount_chunk (o : Options) (p : Part) (t : List Char)
    (hwf : p.kind = PartType.regexp → valueWf p.value = true ∧ p.value.head? ≠ some '?') :
    captureCount (partRegexChunk o p ++ t)
      = (if p.kind = PartType.fixedText then 0 else 1) + captureCount t := by
  have hrv : p.kind ≠ PartType.fixedText →
      ∀ Y, captureCount
        ((if p.kind = PartType.segmentWildcard then generate_segment_wildcard_regexp o
          else if p.kind = PartType.fullWildcard then fullWildcardRegexpValue
          else p.value) ++ Y) = captureCount Y := by
    intro hk Y
    cases h : p.kind with
    | fixedText => exact absurd h hk
    | regexp =>
        show captureCount (p.value ++ Y) = captureCount Y
        exact captureCount_wf_append _ _ ((hwf h).1)
    | segmentWildcard =>
        show captureCount (generate_segment_wildcard_regexp o ++ Y) = captureCount Y
        exact captureCount_seg o Y
    | fullWildcard =>
        show captureCount (fullWildcardRegexpValue ++ Y) = captureCount Y
        exact captureCount_dotstar Y
  have hh : p.kind ≠ PartType.fixedText →
      (if p.kind = PartType.segmentWildcard then generate_segment_wildcard_regexp o
        else if p.kind = PartType.fullWildcard then fullWildcardRegexpValue
        else p.value).head? ≠ some '?' := by
    intro hk
    cases h : p.kind with
    | fixedText => exact absurd h hk
    | regexp =>
        show p.value.head? ≠ some '?'
        exact (hwf h).2
    | segmentWildcard =>
        show (generate_segment_wildcard_regexp o).head? ≠ some '?'
        rw [seg_head]
        decide
    | fullWildcard =>
        show fullWildcardRegexpValue.head? ≠ some '?'
        decide
  by_cases hk : p.kind = PartType.fixedText
  · simp only [partRegexChunk, hk, if_pos, reduceIte, Nat.zero_add]
    by_cases hm : p.modifier = PartModifier.none
    · simp only [hm, reduceIte]
      exact captureCount_escaped_append _ _
    · simp only [hm, reduceIte]
      have : (['(', '?', ':'] ++ escape_regexp_string p.value ++ [')']
            ++ p.modifier.str) ++ t
          = '(' :: '?' :: ':' :: (escape_regexp_string p.value
              ++ ')' :: (p.modifier.str ++ t)) := by simp
      rw [this, captureCount_open_q, captureCount_cons_neutral _ (by decide) (by decide),
        captureCount_escaped_append, captureCount_cons_neutral _ (by decide) (by decide),
        captureCount_modstr_append]
  · simp only [partRegexChunk, hk, reduceIte]
    by_cases hps : p.pre = [] ∧ p.suf = []
    · simp only [hps, and_self, reduceIte]
      by_cases hm : p.modifier = PartModifier.none ∨ p.modifier = PartModifier.optional
      · simp only [hm, reduceIte]
        exact captureCount_shape_bare _ _ _ (hrv hk) (hh hk) (captureCount_modstr _)
      · simp only [hm, reduceIte]
        exact captureCount_shape_bare_rep _ _ _ (hrv hk) (captureCount_modstr _)
    · simp only [hps, reduceIte]
      by_cases hm : p.modifier = PartModifier.none ∨ p.modifier = PartModifier.optional
      · simp only [hm, reduceIte]
        exact captureCount_shape_ps _ _ _ _ _ (hrv hk) (hh hk) (captureCount_modstr _)
      · simp only [hm, reduceIte]
        refine captureCount_shape_ps_rep _ _ _ _ _ (hrv hk) ?_
        intro Y
        by_cases hz : p.modifier = PartModifier.zeroOrMore
        · rw [hz, if_pos rfl, List.singleton_append,
            captureCount_cons_neutral _ (by decide) (by decide)]
        · rw [if_neg hz, List.nil_append]

theorem captureCount_chunks (parts : List Part) (o : Options) (t : List Char)
    (h : ∀ p ∈ parts, p.kind = PartType.regexp →
        valueWf p.value = true ∧ p.value.head? ≠ some '?') :
    captureCount ((parts.map (partRegexChunk o)).flatten ++ t)
      = (parts.filter (fun p => p.kind ≠ PartType.fixedText)).length + captureCount t := by
  induction parts with
  | nil => simp
  | cons p rest ih =>
      have hp := h p (by simp)
      have hrest : ∀ q ∈ rest, q.kind = PartType.regexp →
          valueWf q.value = true ∧ q.value.head? ≠ some '?' :=
        fun q hq => h q (by simp [hq])
      simp only [List.map_cons, List.flatten_cons, List.append_assoc, List.filter_cons]
      rw [captureCount_chunk o p _ hp, ih hrest]
      by_cases hk : p.kind = PartType.fixedText
      · simp [hk]
      · simp [hk]
        omega

/-- C5: For every successfully compiled component, the length of
`group_name_list` equals the number of non-FixedText parts in its part list,
and equals the number of capture groups in the generated regex source
excluding the implicit whole-match group.  The hypothesis records what the
strict tokenizer guarantees for every embedded regexp value of a compiled
component: escapes are complete, every bare '(' is followed by '?', and the
value does not start with '?'. -/
theorem capture_alignment (parts : List Part) (o : Options)
    (h : ∀ p ∈ parts, p.kind = PartType.regexp →
        valueWf p.value = true ∧ p.value.head? ≠ some '?') :
    (generate_regular_expression_and_name_list parts o).2.length
      = (parts.filter (fun p => p.kind ≠ PartType.fixedText)).length ∧
    captureCount (generate_regular_expression_and_name_list parts o).1
      = (generate_regular_expression_and_name_list parts o).2.length := by
  have hnames : (generate_regular_expression_and_name_list parts o).2
      = (parts.filter (fun p => p.kind ≠ PartType.fixedText)).map Part.name := by
    simp [generate_regular_expression_and_name_list, generate_regexp_foldl_eq]
  constructor
  · rw [hnames, List.length_map]
  · rw [generate_regexp_shape, hnames, List.length_map]
    rw [List.cons_append,
      @captureCount_cons_neutral '^' _ (by decide) (by decide),
      captureCount_chunks parts o _ h]
    rfl

/-- Witness for `capture_alignment` at a concrete part list containing a
fixed-text part, a named segment wildcard, and an embedded regexp part. -/
theorem capture_alignment_witness :
    ((∀ p ∈ [Part.mk' PartType.fixedText ['a'] PartModifier.none,
             { kind := PartType.regexp, value := ['x', 'y'],
               modifier := PartModifier.optional, name := ['n'],
               pre := ['/'], suf := [] },
             { kind := PartType.segmentWildcard, value := [],
               modifier := PartModifier.none, name := ['m'],
               pre := [], suf := [] }],
        p.kind = PartType.regexp →
          valueWf p.value = true ∧ p.value.head? ≠ some '?') ∧
      (generate_regular_expression_and_name_list
          [Part.mk' PartType.fixedText ['a'] PartModifier.none,
           { kind := PartType.regexp, value := ['x', 'y'],
             modifier := PartModifier.optional, name := ['n'],
             pre := ['/'], suf := [] },
           { kind := PartType.segmentWildcard, value := [],
             modifier := PartModifier.none, name := ['m'],
             pre := [], suf := [] }] Options.default).2.length = 2) ∧
    captureCount (generate_regular_expression_and_name_list
          [Part.mk' PartType.fixedText ['a'] PartModifier.none,
           { kind := PartType.regexp, value := ['x', 'y'],
             modifier := PartModifier.optional, name := ['n'],
             pre := ['/'], suf := [] },
           { kind := PartType.segmentWildcard, value := [],
             modifier := PartModifier.none, name := ['m'],
             pre := [], suf := [] }] Options.default).1 = 2 := by
  refine ⟨⟨by decide, ?_⟩, ?_⟩
  · rfl
  · have := capture_alignment
      [Part.mk' PartType.fixedText ['a'] PartModifier.none,
       { kind := PartType.regexp, value := ['x', 'y'],
         modifier := PartModifier.optional, name := ['n'],
         pre := ['/'], suf := [] },
       { kind := PartType.segmentWildcard, value := [],
         modifier := PartModifier.none, name := ['m'],
         pre := [], suf := [] }] Options.default (by decide)
    rw [this.2]
    rfl

/-- Ref: matcher.rs `InnerMatcher`.  The `regExp` constructor stores the
synthesized regex source; the backing engine is abstract (regexp.rs is not
part of the given sources) and is passed to `Matcher.matches` as a
parameter. -/
inductive InnerMatcher where
  | literal (lit : List Char)
  | singleCapture (filter : Option (List Char)) (allowEmpty : Bool)
  | regExp (source : List Char)
  deriving Repr, DecidableEq

/-- Ref: matcher.rs `Matcher`.  The literal prefix and suffix fields are
named `pre` and `suf`. -/
structure Matcher where
  pre : List Char
  suf : List Char
  inner : InnerMatcher
  deriving Repr, DecidableEq

/-- Ref: matcher.rs `Matcher::literal`. -/
def Matcher.literal (lit : List Char) : Matcher :=
  { pre := [], suf := [], inner := InnerMatcher.literal lit }

/-- The prefix/suffix strip of matcher.rs `Matcher::matches` (lines 53-69):
length precheck, starts-with, ends-with, then slicing
`input[prefix_len .. input_len - suffix_len]`. -/
def stripPS (P S input : List Char) : Option (List Char) :=
  if 0 < P.length + S.length then
    if input.length < P.length + S.length then none
    else if P.isPrefixOf input then
      if S.isSuffixOf input then
        some ((input.drop P.length).take (input.length - S.length - P.length))
      else none
    else none
  else some input

/-- Substring containment, as Rust `str::contains` on the filter string. -/
def containsSub (needle haystack : List Char) : Bool :=
  needle.isPrefixOf haystack ||
    match haystack with
    | [] => false
    | _ :: t => containsSub needle t

/-- Ref: matcher.rs `Matcher::matches`.  `eng` is the abstract regex engine
(`RegExp::matches`), applied to the stored source and the stripped input. -/
def Matcher.matches (eng : List Char → List Char → Option (List (List Char)))
    (m : Matcher) (input : List Char) : Option (List (List Char)) :=
  match stripPS m.pre m.suf input with
  | none => none
  | some mid =>
      match m.inner with
      | InnerMatcher.literal lit => if mid = lit then some [] else none
      | InnerMatcher.singleCapture filter allowEmpty =>
          if mid = [] ∧ allowEmpty = false then none
          else
            match filter with
            | some f => if containsSub f mid then none else some [mid]
            | none => some [mid]
      | InnerMatcher.regExp src => eng src mid

/-- Ref: component.rs `is_literal` (inside `generate_matcher`). -/
def isLiteralPart (p : Part) : Bool :=
  p.kind = PartType.fixedText && p.modifier = PartModifier.none

/-- Literal-prefix peel of component.rs `generate_matcher` (lines 284-290). -/
def peel1 (parts : List Part) : List Char × List Part :=
  match parts with
  | p :: rest => if isLiteralPart p then (p.value, rest) else ([], parts)
  | [] => ([], [])

/-- Literal-suffix peel of component.rs `generate_matcher` (lines 292-298). -/
def peel2 (parts1 : List Part) : List Char × List Part :=
  match parts1.getLast? with
  | some p => if isLiteralPart p then (p.value, parts1.dropLast) else ([], parts1)
  | none => ([], parts1)

/-- The body of component.rs `generate_matcher` after both peels. -/
def matcherCore (o : Options) (A B : List Char) (rest2 : List Part) : Matcher :=
  match rest2 with
  | [] => Matcher.literal (A ++ B)
  | [w] =>
      if w.kind = PartType.fullWildcard ∧ w.modifier = PartModifier.none then
        { pre := A ++ w.pre,
          suf := if w.suf ≠ [] then w.suf ++ B else B,
          inner := InnerMatcher.singleCapture none true }
      else if w.kind = PartType.segmentWildcard ∧ w.modifier = PartModifier.none then
        { pre := A ++ w.pre,
          suf := if w.suf ≠ [] then w.suf ++ B else B,
          inner := InnerMatcher.singleCapture
            (if o.delimiterCodePoint = [] then none else some o.delimiterCodePoint)
            false }
      else
        { pre := A, suf := B,
          inner := InnerMatcher.regExp
            (generate_regular_expression_and_name_list [w] o).1 }
  | rest2 =>
      { pre := A, suf := B,
        inner := InnerMatcher.regExp
          (generate_regular_expression_and_name_list rest2 o).1 }

/-- Ref: component.rs `generate_matcher`. -/
def generateMatcher (parts : List Part) (o : Options) : Matcher :=
  let pr := peel1 parts
  let sr := peel2 pr.2
  matcherCore o pr.1 sr.1 sr.2

/-- A matcher is specialized when its inner matcher is not the regex
fallback. -/
def InnerMatcher.isSpecialized : InnerMatcher → Bool
  | InnerMatcher.regExp _ => false
  | _ => true

/-- Modelled from the spec: the abstract syntax of the regex dialect the
synthesizer emits for specializable part lists.  The backing regular
expression engine is out of scope of the sources (regexp.rs is absent); the
spec describes it as a parse-and-match capability over the synthesized
source.  `Reg.print` below recovers the exact synthesized source text from
this syntax, tying the model to the string the program actually produces. -/
inductive Reg where
  | eps
  | ch (c : Char)
  | seq (a b : Reg)
  | cap (r : Reg)
  | ncg (r : Reg)
  | dotStar
  | negPlus (cs : List Char)
  deriving Repr, DecidableEq

/-- The source text of a `Reg`, with the same escaping the synthesizer uses:
`cap` prints a capturing group, `ncg` a non-capturing group, `dotStar` the
full wildcard ".*" and `negPlus cs` the segment wildcard class. -/
def Reg.print : Reg → List Char
  | Reg.eps => []
  | Reg.ch c => if c ∈ regexpEscapeSet then ['\\', c] else [c]
  | Reg.seq a b => a.print ++ b.print
  | Reg.cap r => '(' :: r.print ++ [')']
  | Reg.ncg r => '(' :: '?' :: ':' :: r.print ++ [')']
  | Reg.dotStar => ['.', '*']
  | Reg.negPlus cs => '[' :: '^' :: escape_regexp_string cs ++ [']', '+', '?']

/-- Modelled from the spec: anchored matching semantics of the engine.
`RMatch r s g` states that the anchored source `^ r $` matches the whole
input `s`, yielding the capture list `g` (one entry per capturing group, in
group order).  `dotStar` matches any sequence and `negPlus cs` one or more
code points none of which lies in `cs`; match priorities (greedy `.*`, lazy
`+?`) are omitted because the anchored shapes compared here admit at most
one decomposition, so the capture lists are forced. -/
inductive RMatch : Reg → List Char → List (List Char) → Prop where
  | eps : RMatch Reg.eps [] []
  | ch (c : Char) : RMatch (Reg.ch c) [c] []
  | seq {a b : Reg} {s1 s2 : List Char} {g1 g2 : List (List Char)} :
      RMatch a s1 g1 → RMatch b s2 g2 → RMatch (Reg.seq a b) (s1 ++ s2) (g1 ++ g2)
  | cap {r : Reg} {s : List Char} {g : List (List Char)} :
      RMatch r s g → RMatch (Reg.cap r) s (s :: g)
  | ncg {r : Reg} {s : List Char} {g : List (List Char)} :
      RMatch r s g → RMatch (Reg.ncg r) s g
  | dotStar (s : List Char) : RMatch Reg.dotStar s []
  | negPlus (cs s : List Char) :
      s ≠ [] → (∀ c ∈ s, c ∉ cs) → RMatch (Reg.negPlus cs) s []

/-- Literal sequence regex. -/
def litR : List Char → Reg
  | [] => Reg.eps
  | c :: rest => Reg.seq (Reg.ch c) (litR rest)

theorem litR_print (L : List Char) : (litR L).print = escape_regexp_string L := by
  induction L with
  | nil => rfl
  | cons c rest ih => simp [litR, Reg.print, escape_regexp_string, ih]

theorem RMatch_litR (L : List Char) : RMatch (litR L) L [] := by
  induction L with
  | nil => exact RMatch.eps
  | cons c rest ih => exact RMatch.seq (RMatch.ch c) ih

theorem RMatch_litR_iff (L s : List Char) (g : List (List Char)) :
    RMatch (litR L) s g ↔ s = L ∧ g = [] := by
  constructor
  · intro h
    induction L generalizing s g with
    | nil =>
        cases h
        exact ⟨rfl, rfl⟩
    | cons c rest ih =>
        cases h with
        | seq h1 h2 =>
            cases h1
            obtain ⟨rfl, rfl⟩ := ih _ _ h2
            exact ⟨rfl, rfl⟩
  · rintro ⟨rfl, rfl⟩
    exact RMatch_litR _

/-- The part-level regex syntax for a specializable part: a capturing group
around the wildcard body, wrapped in a non-capturing group with the escaped
prefix and suffix when those are non-empty (component.rs lines 123-139). -/
def wrapPS (p : Part) (body : Reg) : Reg :=
  if p.pre = [] ∧ p.suf = [] then Reg.cap body
  else Reg.ncg (Reg.seq (litR p.pre) (Reg.seq (Reg.cap body) (litR p.suf)))

/-- The regex syntax of one part, defined for exactly the parts that occur
in specializable part lists (fixed text, segment wildcard and full wildcard,
all with modifier None). -/
def partAst (o : Options) (p : Part) : Option Reg :=
  if p.modifier = PartModifier.none then
    if p.kind = PartType.fixedText then some (litR p.value)
    else if p.kind = PartType.segmentWildcard then
      some (wrapPS p (Reg.negPlus o.delimiterCodePoint))
    else if p.kind = PartType.fullWildcard then some (wrapPS p Reg.dotStar)
    else none
  else none

/-- The regex syntax of a part list. -/
def regexAstOf (parts : List Part) (o : Options) : Option Reg :=
  match parts with
  | [] => some Reg.eps
  | p :: rest =>
      match partAst o p, regexAstOf rest o with
      | some a, some b => some (Reg.seq a b)
      | _, _ => none

theorem partAst_print (o : Options) (p : Part) (r : Reg)
    (h : partAst o p = some r) : r.print = partRegexChunk o p := by
  unfold partAst at h
  by_cases hm : p.modifier = PartModifier.none
  swap
  · rw [if_neg hm] at h
    exact absurd h (by simp)
  rw [if_pos hm] at h
  by_cases hk1 : p.kind = PartType.fixedText
  · rw [if_pos hk1] at h
    cases h
    rw [litR_print]
    simp [partRegexChunk, hk1, hm, PartModifier.str]
  rw [if_neg hk1] at h
  by_cases hk2 : p.kind = PartType.segmentWildcard
  · rw [if_pos hk2] at h
    cases h
    by_cases hps : p.pre = [] ∧ p.suf = []
    · simp [wrapPS, hps, Reg.print, partRegexChunk, hk1, hk2, hm, PartModifier.str,
        generate_segment_wildcard_regexp]
    · simp [wrapPS, hps, Reg.print, partRegexChunk, hk1, hk2, hm, PartModifier.str,
        generate_segment_wildcard_regexp, litR_print]
  rw [if_neg hk2] at h
  by_cases hk3 : p.kind = PartType.fullWildcard
  · rw [if_pos hk3] at h
    cases h
    by_cases hps : p.pre = [] ∧ p.suf = []
    · simp [wrapPS, hps, Reg.print, partRegexChunk, hk1, hk2, hk3, hm,
        PartModifier.str, fullWildcardRegexpValue]
    · simp [wrapPS, hps, Reg.print, partRegexChunk, hk1, hk2, hk3, hm,
        PartModifier.str, fullWildcardRegexpValue, litR_print]
  · rw [if_neg hk3] at h
    exact absurd h (by simp)

/-- The printed syntax of a coverable part list, anchored, is exactly the
regex source the synthesizer produces for that list. -/
theorem regexAstOf_print (parts : List Part) (o : Options) (r : Reg)
    (h : regexAstOf parts o = some r) :
    ('^' :: r.print) ++ ['$'] = (generate_regular_expression_and_name_list parts o).1 := by
  rw [generate_regexp_shape]
  have : r.print = (parts.map (partRegexChunk o)).flatten := by
    induction parts generalizing r with
    | nil =>
        unfold regexAstOf at h
        cases h
        rfl
    | cons p rest ih =>
        unfold regexAstOf at h
        cases ha : partAst o p with
        | none => rw [ha] at h; exact absurd h (by simp)
        | some a =>
            cases hb : regexAstOf rest o with
            | none => rw [ha, hb] at h; exact absurd h (by simp)
            | some b =>
                rw [ha, hb] at h
                cases h
                simp [Reg.print, partAst_print o p a ha, ih b hb]

  rw [this]

theorem RMatch_eps_iff (s : List Char) (g : List (List Char)) :
    RMatch Reg.eps s g ↔ s = [] ∧ g = [] := by
  constructor
  · intro h; cases h; exact ⟨rfl, rfl⟩
  · rintro ⟨rfl, rfl⟩; exact RMatch.eps

theorem RMatch_seq_iff (a b : Reg) (s : List Char) (g : List (List Char)) :
    RMatch (Reg.seq a b) s g ↔
      ∃ s1 s2 g1 g2, s = s1 ++ s2 ∧ g = g1 ++ g2 ∧ RMatch a s1 g1 ∧ RMatch b s2 g2 := by
  constructor
  · intro h
    cases h with
    | seq h1 h2 => exact ⟨_, _, _, _, rfl, rfl, h1, h2⟩
  · rintro ⟨s1, s2, g1, g2, rfl, rfl, h1, h2⟩
    exact RMatch.seq h1 h2

theorem RMatch_cap_iff (r : Reg) (s : List Char) (g : List (List Char)) :
    RMatch (Reg.cap r) s g ↔ ∃ g', g = s :: g' ∧ RMatch r s g' := by
  constructor
  · intro h
    cases h with
    | cap h1 => exact ⟨_, rfl, h1⟩
  · rintro ⟨g', rfl, h1⟩
    exact RMatch.cap h1

theorem RMatch_ncg_iff (r : Reg) (s : List Char) (g : List (List Char)) :
    RMatch (Reg.ncg r) s g ↔ RMatch r s g := by
  constructor
  · intro h; cases h with | ncg h1 => exact h1
  · exact RMatch.ncg

theorem RMatch_dotStar_iff (s : List Char) (g : List (List Char)) :
    RMatch Reg.dotStar s g ↔ g = [] := by
  constructor
  · intro h; cases h; rfl
  · rintro rfl; exact RMatch.dotStar s

theorem RMatch_negPlus_iff (cs s : List Char) (g : List (List Char)) :
    RMatch (Reg.negPlus cs) s g ↔ g = [] ∧ s ≠ [] ∧ ∀ c ∈ s, c ∉ cs := by
  constructor
  · intro h
    cases h with
    | negPlus _ _ h1 h2 => exact ⟨rfl, h1, h2⟩
  · rintro ⟨rfl, h1, h2⟩
    exact RMatch.negPlus cs s h1 h2

/-- The semantics of one specializable part: what substring it consumes and
what it captures. -/
def PartSem (o : Options) (p : Part) (s : List Char) (g : List (List Char)) : Prop :=
  (p.kind = PartType.fixedText ∧ p.modifier = PartModifier.none ∧
    s = p.value ∧ g = []) ∨
  (p.kind = PartType.segmentWildcard ∧ p.modifier = PartModifier.none ∧
    ∃ mid, s = p.pre ++ mid ++ p.suf ∧ mid ≠ [] ∧
      (∀ c ∈ mid, c ∉ o.delimiterCodePoint) ∧ g = [mid]) ∨
  (p.kind = PartType.fullWildcard ∧ p.modifier = PartModifier.none ∧
    ∃ mid, s = p.pre ++ mid ++ p.suf ∧ g = [mid])

/-- The semantics of a part list: a concatenation split with concatenated
captures. -/
def PartsSem (o : Options) : List Part → List Char → List (List Char) → Prop
  | [], s, g => s = [] ∧ g = []
  | p :: rest, s, g =>
      ∃ s1 s2 g1 g2, s = s1 ++ s2 ∧ g = g1 ++ g2 ∧
        PartSem o p s1 g1 ∧ PartsSem o rest s2 g2

theorem RMatch_wrap (p : Part) (body : Reg) (BP : List Char → Prop)
    (hbody : ∀ s g, RMatch body s g ↔ g = [] ∧ BP s) (s : List Char)
    (g : List (List Char)) :
    RMatch (wrapPS p body) s g ↔
      ∃ mid, s = p.pre ++ mid ++ p.suf ∧ BP mid ∧ g = [mid] := by
  unfold wrapPS
  by_cases hps : p.pre = [] ∧ p.suf = []
  · rw [if_pos hps]
    rw [RMatch_cap_iff]
    constructor
    · rintro ⟨g', rfl, hb⟩
      obtain ⟨rfl, hbp⟩ := (hbody s g').mp hb
      exact ⟨s, by simp [hps.1, hps.2], hbp, rfl⟩
    · rintro ⟨mid, hs, hbp, rfl⟩
      have : s = mid := by simpa [hps.1, hps.2] using hs
      subst this
      exact ⟨[], rfl, (hbody s []).mpr ⟨rfl, hbp⟩⟩
  · rw [if_neg hps]
    rw [RMatch_ncg_iff, RMatch_seq_iff]
    constructor
    · rintro ⟨s1, s2, g1, g2, rfl, rfl, h1, h2⟩
      obtain ⟨rfl, rfl⟩ := (RMatch_litR_iff _ _ _).mp h1
      rw [RMatch_seq_iff] at h2
      obtain ⟨s3, s4, g3, g4, rfl, rfl, h3, h4⟩ := h2
      obtain ⟨g3', rfl, hb⟩ := (RMatch_cap_iff _ _ _).mp h3
      obtain ⟨rfl, hbp⟩ := (hbody s3 g3').mp hb
      obtain ⟨rfl, rfl⟩ := (RMatch_litR_iff _ _ _).mp h4
      exact ⟨s3, by simp, hbp, rfl⟩
    · rintro ⟨mid, rfl, hbp, rfl⟩
      refine ⟨p.pre, mid ++ p.suf, [], [mid], by simp, rfl, RMatch_litR p.pre, ?_⟩
      rw [RMatch_seq_iff]
      exact ⟨mid, p.suf, [mid], [], rfl, rfl,
        RMatch.cap ((hbody mid []).mpr ⟨rfl, hbp⟩), RMatch_litR p.suf⟩

theorem RMatch_partAst (o : Options) (p : Part) (a : Reg)
    (h : partAst o p = some a) (s : List Char) (g : List (List Char)) :
    RMatch a s g ↔ PartSem o p s g := by
  unfold partAst at h
  by_cases hm : p.modifier = PartModifier.none
  swap
  · rw [if_neg hm] at h; exact absurd h (by simp)
  rw [if_pos hm] at h
  by_cases hk1 : p.kind = PartType.fixedText
  · rw [if_pos hk1] at h
    cases h
    rw [RMatch_litR_iff]
    unfold PartSem
    constructor
    · rintro ⟨rfl, rfl⟩
      exact Or.inl ⟨hk1, hm, rfl, rfl⟩
    · rintro (⟨_, _, hs, hg⟩ | ⟨hk, _⟩ | ⟨hk, _⟩)
      · exact ⟨hs, hg⟩
      · exact absurd (hk1 ▸ hk) (by simp)
      · exact absurd (hk1 ▸ hk) (by simp)
  rw [if_neg hk1] at h
  by_cases hk2 : p.kind = PartType.segmentWildcard
  · rw [if_pos hk2] at h
    cases h
    rw [RMatch_wrap p _ (fun mid => mid ≠ [] ∧ ∀ c ∈ mid, c ∉ o.delimiterCodePoint)
      (fun s g => by rw [RMatch_negPlus_iff])]
    unfold PartSem
    constructor
    · rintro ⟨mid, rfl, ⟨h1, h2⟩, rfl⟩
      exact Or.inr (Or.inl ⟨hk2, hm, mid, rfl, h1, h2, rfl⟩)
    · rintro (⟨hk, _⟩ | ⟨_, _, mid, rfl, h1, h2, rfl⟩ | ⟨hk, _⟩)
      · exact absurd (hk2 ▸ hk) (by simp)
      · exact ⟨mid, rfl, ⟨h1, h2⟩, rfl⟩
      · exact absurd (hk2 ▸ hk) (by simp)
  rw [if_neg hk2] at h
  by_cases hk3 : p.kind = PartType.fullWildcard
  · rw [if_pos hk3] at h
    cases h
    rw [RMatch_wrap p _ (fun _ => True)
      (fun s g => by rw [RMatch_dotStar_iff]; tauto)]
    unfold PartSem
    constructor
    · rintro ⟨mid, rfl, _, rfl⟩
      exact Or.inr (Or.inr ⟨hk3, hm, mid, rfl, rfl⟩)
    · rintro (⟨hk, _⟩ | ⟨hk, _⟩ | ⟨_, _, mid, rfl, rfl⟩)
      · exact absurd (hk3 ▸ hk) (by simp)
      · exact absurd (hk3 ▸ hk) (by simp)
      · exact ⟨mid, rfl, trivial, rfl⟩
  · rw [if_neg hk3] at h
    exact absurd h (by simp)

theorem RMatch_astOf (parts : List Part) (o : Options) (r : Reg)
    (h : regexAstOf parts o = some r) (s : List Char) (g : List (List Char)) :
    RMatch r s g ↔ PartsSem o parts s g := by
  induction parts generalizing r s g with
  | nil =>
      unfold regexAstOf at h
      cases h
      rw [RMatch_eps_iff]
      rfl
  | cons p rest ih =>
      unfold regexAstOf at h
      cases ha : partAst o p with
      | none => rw [ha] at h; exact absurd h (by simp)
      | some a =>
          cases hb : regexAstOf rest o with
          | none => rw [ha, hb] at h; exact absurd h (by simp)
          | some b =>
              rw [ha, hb] at h
              cases h
              rw [RMatch_seq_iff]
              show _ ↔ PartsSem o (p :: rest) s g
              unfold PartsSem
              constructor
              · rintro ⟨s1, s2, g1, g2, rfl, rfl, h1, h2⟩
                exact ⟨s1, s2, g1, g2, rfl, rfl,
                  (RMatch_partAst o p a ha s1 g1).mp h1, (ih b hb s2 g2).mp h2⟩
              · rintro ⟨s1, s2, g1, g2, rfl, rfl, h1, h2⟩
                exact ⟨s1, s2, g1, g2, rfl, rfl,
                  (RMatch_partAst o p a ha s1 g1).mpr h1, (ih b hb s2 g2).mpr h2⟩

/-- The prefix/suffix strip succeeds exactly on the inputs that decompose as
prefix ++ middle ++ suffix, and returns that middle. -/
theorem stripPS_eq_some (P S input mid : List Char) :
    stripPS P S input = some mid ↔ input = P ++ mid ++ S := by
  unfold stripPS
  by_cases h0 : 0 < P.length + S.length
  swap
  · have hP : P = [] := by
      have := Nat.le_zero.mp (Nat.not_lt.mp h0)
      exact List.eq_nil_of_length_eq_zero (by omega)
    have hS : S = [] := by
      have := Nat.le_zero.mp (Nat.not_lt.mp h0)
      exact List.eq_nil_of_length_eq_zero (by omega)
    subst hP; subst hS
    simp
  rw [if_pos h0]
  constructor
  · intro h
    by_cases hlen : input.length < P.length + S.length
    · rw [if_pos hlen] at h; exact absurd h (by simp)
    rw [if_neg hlen] at h
    by_cases hpre : P.isPrefixOf input
    swap
    · rw [if_neg hpre] at h
      exact absurd h (by simp)
    rw [if_pos hpre] at h
    by_cases hsuf : S.isSuffixOf input
    swap
    · rw [if_neg hsuf] at h
      exact absurd h (by simp)
    rw [if_pos hsuf] at h
    have hmid : mid = (input.drop P.length).take (input.length - S.length - P.length) := by
      have := h
      simp only [Option.some.injEq] at this
      exact this.symm
    obtain ⟨t, ht⟩ := List.isPrefixOf_iff_prefix.mp hpre
    have hS' : S = input.drop (input.length - S.length) :=
      List.suffix_iff_eq_drop.mp (List.isSuffixOf_iff_suffix.mp hsuf)
    have hdrop : input.drop P.length = t := by rw [← ht, List.drop_left]
    have hinlen : input.length = P.length + t.length := by rw [← ht]; simp
    have hlen3 : P.length + S.length ≤ input.length := Nat.not_lt.mp hlen
    have e0 : input.drop (P.length + (t.length - S.length))
        = t.drop (t.length - S.length) := by
      conv_lhs => rw [← ht]
      rw [← List.drop_drop, List.drop_left]
    have hlen2 : input.length - S.length = P.length + (t.length - S.length) := by
      omega
    have e1 : input.drop (input.length - S.length) = t.drop (t.length - S.length) := by
      rw [hlen2, e0]
    have hSt : t.drop (t.length - S.length) = S := by
      rw [← e1]
      exact hS'.symm
    have hsplit : t = t.take (t.length - S.length) ++ S := by
      conv_lhs => rw [← List.take_append_drop (t.length - S.length) t]
      rw [hSt]
    rw [hmid, hdrop]
    have harith2 : input.length - S.length - P.length = t.length - S.length := by omega
    rw [harith2, ← ht, List.append_assoc, ← hsplit]
  · intro h
    subst h
    have hlen : ¬ (P ++ mid ++ S).length < P.length + S.length := by
      simp only [List.length_append]
      omega
    rw [if_neg hlen]
    have hpre : P.isPrefixOf (P ++ mid ++ S) = true := by
      rw [List.isPrefixOf_iff_prefix, List.append_assoc]
      exact ⟨mid ++ S, rfl⟩
    have hsuf : S.isSuffixOf (P ++ mid ++ S) = true := by
      rw [List.isSuffixOf_iff_suffix]
      exact ⟨P ++ mid, by rw [List.append_assoc]⟩
    rw [if_pos hpre, if_pos hsuf]
    have hdrop : (P ++ mid ++ S).drop P.length = mid ++ S := by
      rw [List.append_assoc, List.drop_left]
    have harith : (P ++ mid ++ S).length - S.length - P.length = mid.length := by
      simp only [List.length_append]
      omega
    rw [hdrop, harith, List.take_left]

theorem containsSub_singleton (c : Char) (mid : List Char) :
    containsSub [c] mid = true ↔ c ∈ mid := by
  induction mid with
  | nil => simp [containsSub, List.isPrefixOf]
  | cons d t ih =>
      rw [containsSub]
      simp only [Bool.or_eq_true, List.mem_cons, ih]
      constructor
      · rintro (h | h)
        · left
          have h2 : ((c == d) && List.isPrefixOf [] t) = true := by
            simpa [List.isPrefixOf] using h
          exact eq_of_beq ((Bool.and_eq_true _ _).mp h2).1
        · right; exact h
      · rintro (rfl | h)
        · left; simp [List.isPrefixOf]
        · right; exact h

/-- Characterization of `Matcher.matches` for a literal matcher. -/
theorem matches_literal (eng : List Char → List Char → Option (List (List Char)))
    (L input : List Char) (caps : List (List Char)) :
    Matcher.matches eng (Matcher.literal L) input = some caps ↔
      input = L ∧ caps = [] := by
  have hstrip : stripPS [] [] input = some input := by simp [stripPS]
  simp only [Matcher.matches, Matcher.literal, hstrip]
  by_cases h : input = L
  · simp [h, eq_comm]
  · simp [h]

/-- Characterization of `Matcher.matches` for a single-capture matcher. -/
theorem matches_singleCapture (eng : List Char → List Char → Option (List (List Char)))
    (P S : List Char) (f : Option (List Char)) (ae : Bool)
    (input : List Char) (caps : List (List Char)) :
    Matcher.matches eng
        { pre := P, suf := S, inner := InnerMatcher.singleCapture f ae } input
        = some caps ↔
      ∃ mid, input = P ++ mid ++ S ∧ ¬ (mid = [] ∧ ae = false) ∧
        (∀ fs, f = some fs → containsSub fs mid = false) ∧ caps = [mid] := by
  unfold Matcher.matches
  cases hstrip : stripPS P S input with
  | none =>
      simp only
      constructor
      · intro h; exact absurd h (by simp)
      · rintro ⟨mid, hmid, _, _, _⟩
        rw [(stripPS_eq_some P S input mid).mpr hmid] at hstrip
        exact absurd hstrip (by simp)
  | some mid =>
      have hmid := (stripPS_eq_some P S input mid).mp hstrip
      simp only
      constructor
      · intro h
        by_cases hempty : mid = [] ∧ ae = false
        · rw [if_pos hempty] at h
          exact absurd h (by simp)
        rw [if_neg hempty] at h
        cases hf : f with
        | none =>
            simp only [hf] at h
            refine ⟨mid, hmid, hempty, ?_, ?_⟩
            · intro fs hfs
              exact absurd hfs (by simp)
            · simpa using h.symm
        | some fs =>
            simp only [hf] at h
            by_cases hc : containsSub fs mid
            · rw [if_pos hc] at h
              exact absurd h (by simp)
            · rw [if_neg hc] at h
              refine ⟨mid, hmid, hempty, ?_, by simpa using h.symm⟩
              intro fs' hfs'
              cases hfs'
              simpa using hc
      · rintro ⟨mid', hmid', hempty, hfs, rfl⟩
        have hEq : mid' = mid := by
          have h1 : P ++ mid' ++ S = P ++ mid ++ S := by rw [← hmid', ← hmid]
          have h2 := List.append_cancel_right h1
          exact List.append_cancel_left h2
        rw [hEq] at hempty hfs ⊢
        rw [if_neg hempty]
        cases hf : f with
        | none => simp
        | some fs =>
            have hcf : containsSub fs mid = false := hfs fs hf
            simp [hcf]

theorem PartsSem_nil_iff (o : Options) (s : List Char) (g : List (List Char)) :
    PartsSem o [] s g ↔ s = [] ∧ g = [] := Iff.rfl

theorem PartsSem_cons_iff (o : Options) (p : Part) (rest : List Part)
    (s : List Char) (g : List (List Char)) :
    PartsSem o (p :: rest) s g ↔
      ∃ s1 s2 g1 g2, s = s1 ++ s2 ∧ g = g1 ++ g2 ∧
        PartSem o p s1 g1 ∧ PartsSem o rest s2 g2 := Iff.rfl

/-- For a literal (fixed text, modifier None) part, `PartSem` pins the
consumed substring to the part's value with no capture. -/
theorem PartSem_lit (o : Options) (p : Part) (hp : isLiteralPart p = true)
    (s : List Char) (g : List (List Char)) :
    PartSem o p s g ↔ s = p.value ∧ g = [] := by
  have hk : p.kind = PartType.fixedText := by
    have := (Bool.and_eq_true _ _).mp hp
    exact of_decide_eq_true this.1
  have hm : p.modifier = PartModifier.none := by
    have := (Bool.and_eq_true _ _).mp hp
    exact of_decide_eq_true this.2
  unfold PartSem
  constructor
  · rintro (⟨_, _, hs, hg⟩ | ⟨hk2, _⟩ | ⟨hk2, _⟩)
    · exact ⟨hs, hg⟩
    · exact absurd (hk ▸ hk2) (by simp)
    · exact absurd (hk ▸ hk2) (by simp)
  · rintro ⟨hs, hg⟩
    exact Or.inl ⟨hk, hm, hs, hg⟩

theorem PartsSem_lit_cons (o : Options) (p : Part) (rest : List Part)
    (hp : isLiteralPart p = true) (s : List Char) (g : List (List Char)) :
    PartsSem o (p :: rest) s g ↔ ∃ s2, s = p.value ++ s2 ∧ PartsSem o rest s2 g := by
  rw [PartsSem_cons_iff]
  constructor
  · rintro ⟨s1, s2, g1, g2, rfl, rfl, h1, h2⟩
    obtain ⟨rfl, rfl⟩ := (PartSem_lit o p hp _ _).mp h1
    exact ⟨s2, rfl, by simpa using h2⟩
  · rintro ⟨s2, rfl, h2⟩
    exact ⟨p.value, s2, [], g, rfl, rfl, (PartSem_lit o p hp _ _).mpr ⟨rfl, rfl⟩, h2⟩

theorem PartsSem_append (o : Options) (l1 l2 : List Part) (s : List Char)
    (g : List (List Char)) :
    PartsSem o (l1 ++ l2) s g ↔
      ∃ s1 s2 g1 g2, s = s1 ++ s2 ∧ g = g1 ++ g2 ∧
        PartsSem o l1 s1 g1 ∧ PartsSem o l2 s2 g2 := by
  induction l1 generalizing s g with
  | nil =>
      simp only [List.nil_append]
      constructor
      · intro h
        exact ⟨[], s, [], g, rfl, rfl, ⟨rfl, rfl⟩, h⟩
      · rintro ⟨s1, s2, g1, g2, rfl, rfl, ⟨rfl, rfl⟩, h2⟩
        simpa using h2
  | cons p rest ih =>
      simp only [List.cons_append]
      rw [PartsSem_cons_iff]
      constructor
      · rintro ⟨s1, s2, g1, g2, rfl, rfl, h1, h2⟩
        obtain ⟨s3, s4, g3, g4, rfl, rfl, h3, h4⟩ := (ih _ _).mp h2
        exact ⟨s1 ++ s3, s4, g1 ++ g3, g4, by simp, by simp,
          (PartsSem_cons_iff o p rest _ _).mpr ⟨s1, s3, g1, g3, rfl, rfl, h1, h3⟩, h4⟩
      · rintro ⟨s1, s2, g1, g2, rfl, rfl, h1, h2⟩
        obtain ⟨s3, s4, g3, g4, rfl, rfl, h3, h4⟩ :=
          (PartsSem_cons_iff o p rest _ _).mp h1
        exact ⟨s3, s4 ++ s2, g3, g4 ++ g2, by simp, by simp, h3, (ih _ _).mpr
          ⟨s4, s2, g4, g2, rfl, rfl, h4, h2⟩⟩

theorem PartsSem_lit_concat (o : Options) (q : Part) (init : List Part)
    (hq : isLiteralPart q = true) (s : List Char) (g : List (List Char)) :
    PartsSem o (init ++ [q]) s g ↔ ∃ s1, s = s1 ++ q.value ∧ PartsSem o init s1 g := by
  rw [PartsSem_append]
  constructor
  · rintro ⟨s1, s2, g1, g2, rfl, rfl, h1, h2⟩
    obtain ⟨s3, s4, g3, g4, rfl, rfl, h3, h4⟩ := (PartsSem_cons_iff o q [] _ _).mp h2
    obtain ⟨rfl, rfl⟩ := (PartSem_lit o q hq _ _).mp h3
    obtain ⟨rfl, rfl⟩ := (PartsSem_nil_iff o _ _).mp h4
    exact ⟨s1, by simp, by simpa using h1⟩
  · rintro ⟨s1, rfl, h1⟩
    exact ⟨s1, q.value, g, [], rfl, by simp, h1,
      (PartsSem_cons_iff o q [] _ _).mpr ⟨q.value, [], [], [], by simp, rfl,
        (PartSem_lit o q hq _ _).mpr ⟨rfl, rfl⟩, ⟨rfl, rfl⟩⟩⟩

theorem PartsSem_single (o : Options) (w : Part) (s : List Char)
    (g : List (List Char)) :
    PartsSem o [w] s g ↔ PartSem o w s g := by
  rw [PartsSem_cons_iff]
  constructor
  · rintro ⟨s1, s2, g1, g2, rfl, rfl, h1, h2⟩
    obtain ⟨rfl, rfl⟩ := (PartsSem_nil_iff o _ _).mp h2
    simpa using h1
  · intro h
    exact ⟨s, [], g, [], by simp, by simp, h, ⟨rfl, rfl⟩⟩

theorem partAst_of_literal (o : Options) (p : Part) (hp : isLiteralPart p = true) :
    partAst o p = some (litR p.value) := by
  have hk : p.kind = PartType.fixedText :=
    of_decide_eq_true ((Bool.and_eq_true _ _).mp hp).1
  have hm : p.modifier = PartModifier.none :=
    of_decide_eq_true ((Bool.and_eq_true _ _).mp hp).2
  simp [partAst, hk, hm]

theorem regexAstOf_isSome (parts : List Part) (o : Options)
    (h : ∀ p ∈ parts, ∃ a, partAst o p = some a) :
    ∃ r, regexAstOf parts o = some r := by
  induction parts with
  | nil => exact ⟨Reg.eps, rfl⟩
  | cons p rest ih =>
      obtain ⟨a, ha⟩ := h p (by simp)
      obtain ⟨b, hb⟩ := ih (fun q hq => h q (by simp [hq]))
      exact ⟨Reg.seq a b, by simp [regexAstOf, ha, hb]⟩

theorem peel1_cases (parts : List Part) :
    (peel1 parts = ([], parts)) ∨
      ∃ p rest, isLiteralPart p = true ∧ parts = p :: rest ∧
        peel1 parts = (p.value, rest) := by
  cases parts with
  | nil => left; rfl
  | cons p rest =>
      by_cases hp : isLiteralPart p
      · right; exact ⟨p, rest, hp, rfl, by simp [peel1, hp]⟩
      · left; simp [peel1, hp]

theorem peel2_cases (l : List Part) :
    (peel2 l = ([], l)) ∨
      ∃ q init, isLiteralPart q = true ∧ l = init ++ [q] ∧
        peel2 l = (q.value, init) := by
  induction l using List.reverseRecOn with
  | nil => left; rfl
  | append_singleton init q _ =>
      by_cases hq : isLiteralPart q
      · right
        exact ⟨q, init, hq, rfl,
          by simp [peel2, List.getLast?_concat, hq, List.dropLast_concat]⟩
      · left
        simp [peel2, List.getLast?_concat, hq]

theorem exists_shift (A B : List Char) (Q : List Char → Prop) (s : List Char) :
    (∃ s2, s = A ++ s2 ∧ ∃ s1, s2 = s1 ++ B ∧ Q s1) ↔
      ∃ sm, s = A ++ sm ++ B ∧ Q sm := by
  constructor
  · rintro ⟨s2, rfl, s1, rfl, hq⟩
    exact ⟨s1, by simp, hq⟩
  · rintro ⟨sm, rfl, hq⟩
    exact ⟨sm ++ B, by simp, sm, rfl, hq⟩

theorem matcher_agreement_core (o : Options) (input : List Char)
    (hdelim : o.delimiterCodePoint.length ≤ 1)
    (A B : List Char) (rest2 parts : List Part)
    (hmem : ∀ p ∈ parts, p ∈ rest2 ∨ isLiteralPart p = true)
    (hsem : ∀ s g, PartsSem o parts s g ↔
      ∃ sm, s = A ++ sm ++ B ∧ PartsSem o rest2 sm g)
    (hgen : generateMatcher parts o = matcherCore o A B rest2)
    (hspec : (generateMatcher parts o).inner.isSpecialized = true) :
    ∃ r, regexAstOf parts o = some r ∧
      ('^' :: r.print) ++ ['$'] = (generate_regular_expression_and_name_list parts o).1 ∧
      ∀ (eng : List Char → List Char → Option (List (List Char)))
        (caps : List (List Char)),
        (Matcher.matches eng (generateMatcher parts o) input = some caps
          ↔ RMatch r input caps) := by
  rw [hgen] at hspec
  cases rest2 with
  | nil =>
      have hsome : ∀ p ∈ parts, ∃ a, partAst o p = some a := by
        intro p hp
        rcases hmem p hp with hin | hlit
        · exact absurd hin (by simp)
        · exact ⟨_, partAst_of_literal o p hlit⟩
      obtain ⟨r, hr⟩ := regexAstOf_isSome parts o hsome
      refine ⟨r, hr, regexAstOf_print parts o r hr, ?_⟩
      intro eng caps
      rw [hgen]
      have hmc : matcherCore o A B [] = Matcher.literal (A ++ B) := rfl
      rw [hmc, matches_literal, RMatch_astOf parts o r hr, hsem]
      constructor
      · rintro ⟨rfl, rfl⟩
        exact ⟨[], by simp, rfl, rfl⟩
      · rintro ⟨sm, rfl, hrest⟩
        obtain ⟨rfl, rfl⟩ := (PartsSem_nil_iff o sm caps).mp hrest
        exact ⟨by simp, rfl⟩
  | cons w rest3 =>
      cases rest3 with
      | cons x rest4 =>
          exfalso
          have hmc : (matcherCore o A B (w :: x :: rest4)).inner =
              InnerMatcher.regExp
                (generate_regular_expression_and_name_list (w :: x :: rest4) o).1 := rfl
          rw [hmc] at hspec
          simp [InnerMatcher.isSpecialized] at hspec
      | nil =>
          by_cases hw1 : w.kind = PartType.fullWildcard ∧ w.modifier = PartModifier.none
          · -- single full wildcard: SingleCapture with no filter
            have hmc : matcherCore o A B [w] =
                { pre := A ++ w.pre, suf := if w.suf ≠ [] then w.suf ++ B else B,
                  inner := InnerMatcher.singleCapture none true } := by
              simp [matcherCore, hw1]
            have hsuf : (if w.suf ≠ [] then w.suf ++ B else B) = w.suf ++ B := by
              by_cases h : w.suf = [] <;> simp [h]
            have hsomew : partAst o w = some (wrapPS w Reg.dotStar) := by
              simp [partAst, hw1.1, hw1.2]
            have hsome : ∀ p ∈ parts, ∃ a, partAst o p = some a := by
              intro p hp
              rcases hmem p hp with hin | hlit
              · have : p = w := by simpa using hin
                subst this
                exact ⟨_, hsomew⟩
              · exact ⟨_, partAst_of_literal o p hlit⟩
            obtain ⟨r, hr⟩ := regexAstOf_isSome parts o hsome
            refine ⟨r, hr, regexAstOf_print parts o r hr, ?_⟩
            intro eng caps
            rw [hgen, hmc, hsuf, matches_singleCapture,
              RMatch_astOf parts o r hr, hsem]
            constructor
            · rintro ⟨mid, hmid, _, _, rfl⟩
              refine ⟨w.pre ++ mid ++ w.suf, by simpa [List.append_assoc] using hmid, ?_⟩
              exact (PartsSem_single o w _ _).mpr
                (Or.inr (Or.inr ⟨hw1.1, hw1.2, mid, rfl, rfl⟩))
            · rintro ⟨sm, rfl, hsm⟩
              rcases (PartsSem_single o w sm caps).mp hsm with
                ⟨hk, _⟩ | ⟨hk, _⟩ | ⟨_, _, mid, rfl, rfl⟩
              · exact absurd (hw1.1.symm.trans hk) (by simp)
              · exact absurd (hw1.1.symm.trans hk) (by simp)
              · exact ⟨mid, by simp [List.append_assoc], by simp, by simp, rfl⟩
          by_cases hw2 : w.kind = PartType.segmentWildcard ∧ w.modifier = PartModifier.none
          · -- single segment wildcard: SingleCapture with delimiter filter
            have hmc : matcherCore o A B [w] =
                { pre := A ++ w.pre, suf := if w.suf ≠ [] then w.suf ++ B else B,
                  inner := InnerMatcher.singleCapture
                    (if o.delimiterCodePoint = [] then none
                      else some o.delimiterCodePoint) false } := by
              simp [matcherCore, hw1, hw2]
            have hsuf : (if w.suf ≠ [] then w.suf ++ B else B) = w.suf ++ B := by
              by_cases h : w.suf = [] <;> simp [h]
            have hsomew : partAst o w =
                some (wrapPS w (Reg.negPlus o.delimiterCodePoint)) := by
              have hknf : ¬ w.kind = PartType.fixedText := by
                rw [hw2.1]; simp
              simp [partAst, hw2.1, hw2.2, hknf]
            have hsome : ∀ p ∈ parts, ∃ a, partAst o p = some a := by
              intro p hp
              rcases hmem p hp with hin | hlit
              · have : p = w := by simpa using hin
                subst this
                exact ⟨_, hsomew⟩
              · exact ⟨_, partAst_of_literal o p hlit⟩
            obtain ⟨r, hr⟩ := regexAstOf_isSome parts o hsome
            refine ⟨r, hr, regexAstOf_print parts o r hr, ?_⟩
            intro eng caps
            rw [hgen, hmc, hsuf, matches_singleCapture,
              RMatch_astOf parts o r hr, hsem]
            constructor
            · rintro ⟨mid, hmid, hne, hfil, rfl⟩
              have hmidne : mid ≠ [] := by
                intro hcon
                exact hne ⟨hcon, rfl⟩
              have hnotin : ∀ c ∈ mid, c ∉ o.delimiterCodePoint := by
                intro x hx
                cases hd : o.delimiterCodePoint with
                | nil => simp
                | cons c rest =>
                    have hrestnil : rest = [] := by
                      have h2 := hdelim
                      rw [hd] at h2
                      simp only [List.length_cons] at h2
                      exact List.eq_nil_of_length_eq_zero (by omega)
                    subst hrestnil
                    have hcs : containsSub [c] mid = false := by
                      have h3 := hfil [c]
                      rw [hd] at h3
                      exact h3 (by simp)
                    simp only [List.mem_singleton]
                    intro hxc
                    subst hxc
                    rw [(containsSub_singleton x mid).mpr hx] at hcs
                    exact absurd hcs (by simp)
              refine ⟨w.pre ++ mid ++ w.suf,
                by simpa [List.append_assoc] using hmid, ?_⟩
              exact (PartsSem_single o w _ _).mpr
                (Or.inr (Or.inl ⟨hw2.1, hw2.2, mid, rfl, hmidne, hnotin, rfl⟩))
            · rintro ⟨sm, rfl, hsm⟩
              rcases (PartsSem_single o w sm caps).mp hsm with
                ⟨hk, _⟩ | ⟨_, _, mid, rfl, hmidne, hnotin, rfl⟩ | ⟨hk, _⟩
              · exact absurd (hw2.1.symm.trans hk) (by simp)
              swap
              · exact absurd (hw2.1.symm.trans hk) (by simp)
              refine ⟨mid, by simp [List.append_assoc], ?_, ?_, rfl⟩
              · rintro ⟨h1, _⟩
                exact hmidne h1
              · intro fs hfs
                by_cases hd : o.delimiterCodePoint = []
                · rw [if_pos hd] at hfs
                  exact absurd hfs (by simp)
                · rw [if_neg hd] at hfs
                  have hfseq : fs = o.delimiterCodePoint := by
                    cases hfs
                    rfl
                  subst hfseq
                  cases hd2 : o.delimiterCodePoint with
                  | nil => exact absurd hd2 hd
                  | cons c rest =>
                      have hrestnil : rest = [] := by
                        have h2 := hdelim
                        rw [hd2] at h2
                        simp only [List.length_cons] at h2
                        exact List.eq_nil_of_length_eq_zero (by omega)
                      subst hrestnil
                      by_cases hcm : c ∈ mid
                      · exfalso
                        have h4 := hnotin c hcm
                        rw [hd2] at h4
                        exact h4 (by simp)
                      · rw [← Bool.not_eq_true]
                        intro hcon
                        exact hcm ((containsSub_singleton c mid).mp hcon)
          · exfalso
            have hmc : (matcherCore o A B [w]).inner =
                InnerMatcher.regExp
                  (generate_regular_expression_and_name_list [w] o).1 := by
              simp [matcherCore, hw1, hw2]
            rw [hmc] at hspec
            simp [InnerMatcher.isSpecialized] at hspec

/-- C1: For every part list and component options (the delimiter holding at
most one code point, per the data-model invariant), whenever
`generate_matcher` produces a specialized matcher (Literal or SingleCapture,
after peeling the literal prefix and suffix), that matcher accepts exactly
the same input strings as the regex fallback synthesized from the same part
list, and on acceptance yields the same captured substrings.  The regex
fallback is modelled by `RMatch` over the syntax `regexAstOf`, whose printed
form is proved to be exactly the anchored source
`generate_regular_expression_and_name_list` emits for this part list. -/
theorem matcher_agreement (parts : List Part) (o : Options) (input : List Char)
    (hdelim : o.delimiterCodePoint.length ≤ 1)
    (hspec : (generateMatcher parts o).inner.isSpecialized = true) :
    ∃ r, regexAstOf parts o = some r ∧
      ('^' :: r.print) ++ ['$'] = (generate_regular_expression_and_name_list parts o).1 ∧
      ∀ (eng : List Char → List Char → Option (List (List Char)))
        (caps : List (List Char)),
        (Matcher.matches eng (generateMatcher parts o) input = some caps
          ↔ RMatch r input caps) := by
  rcases peel1_cases parts with h1 | ⟨p, rest, hp, hpeq, h1⟩
  · rcases peel2_cases parts with h2 | ⟨q, init, hq, hleq, h2⟩
    · refine matcher_agreement_core o input hdelim [] [] parts parts ?_ ?_ ?_ hspec
      · intro x hx
        exact Or.inl hx
      · intro s g
        constructor
        · intro h
          exact ⟨s, by simp, h⟩
        · rintro ⟨sm, rfl, h⟩
          simpa using h
      · simp only [generateMatcher, h1, h2]
    · refine matcher_agreement_core o input hdelim [] q.value init parts ?_ ?_ ?_ hspec
      · intro x hx
        rw [hleq] at hx
        rcases List.mem_append.mp hx with hi | hqq
        · exact Or.inl hi
        · have : x = q := by simpa using hqq
          exact Or.inr (this ▸ hq)
      · intro s g
        rw [hleq, PartsSem_lit_concat o q init hq]
        constructor
        · rintro ⟨s1, rfl, h⟩
          exact ⟨s1, by simp, h⟩
        · rintro ⟨sm, rfl, h⟩
          exact ⟨sm, by simp, h⟩
      · simp only [generateMatcher, h1, h2]
  · rcases peel2_cases rest with h2 | ⟨q, init, hq, hleq, h2⟩
    · refine matcher_agreement_core o input hdelim p.value [] rest parts ?_ ?_ ?_ hspec
      · intro x hx
        rw [hpeq] at hx
        rcases List.mem_cons.mp hx with hxp | hi
        · exact Or.inr (hxp ▸ hp)
        · exact Or.inl hi
      · intro s g
        rw [hpeq, PartsSem_lit_cons o p rest hp]
        constructor
        · rintro ⟨s2, rfl, h⟩
          exact ⟨s2, by simp, h⟩
        · rintro ⟨sm, rfl, h⟩
          exact ⟨sm, by simp, h⟩
      · simp only [generateMatcher, h1, h2]
    · refine matcher_agreement_core o input hdelim p.value q.value init parts
        ?_ ?_ ?_ hspec
      · intro x hx
        rw [hpeq, hleq] at hx
        rcases List.mem_cons.mp hx with hxp | hi
        · exact Or.inr (hxp ▸ hp)
        · rcases List.mem_append.mp hi with hii | hqq
          · exact Or.inl hii
          · have : x = q := by simpa using hqq
            exact Or.inr (this ▸ hq)
      · intro s g
        rw [hpeq, PartsSem_lit_cons o p rest hp, hleq]
        simp only [PartsSem_lit_concat o q init hq]
        exact exists_shift p.value q.value (fun sm => PartsSem o init sm g) s
      · simp only [generateMatcher, h1, h2]

/-- Witness for `matcher_agreement` at a concrete part list: a literal
prefix part, a segment wildcard with prefix "/", and a literal suffix part,
with pathname-style options, on the input "xa/qz". -/
theorem matcher_agreement_witness :
    ((({ delimiterCodePoint := ['/'], prefixCodePoint := ['/'] } :
          Options).delimiterCodePoint.length ≤ 1) ∧
      (generateMatcher
          [Part.mk' PartType.fixedText ['x'] PartModifier.none,
           { kind := PartType.segmentWildcard, value := [],
             modifier := PartModifier.none, name := ['n'],
             pre := ['a'], suf := [] },
           Part.mk' PartType.fixedText ['z'] PartModifier.none]
          { delimiterCodePoint := ['/'], prefixCodePoint := ['/'] }).inner.isSpecialized
        = true) ∧
    (∃ r, regexAstOf
        [Part.mk' PartType.fixedText ['x'] PartModifier.none,
         { kind := PartType.segmentWildcard, value := [],
           modifier := PartModifier.none, name := ['n'],
           pre := ['a'], suf := [] },
         Part.mk' PartType.fixedText ['z'] PartModifier.none]
        { delimiterCodePoint := ['/'], prefixCodePoint := ['/'] } = some r ∧
      ('^' :: r.print) ++ ['$'] = (generate_regular_expression_and_name_list
        [Part.mk' PartType.fixedText ['x'] PartModifier.none,
         { kind := PartType.segmentWildcard, value := [],
           modifier := PartModifier.none, name := ['n'],
           pre := ['a'], suf := [] },
         Part.mk' PartType.fixedText ['z'] PartModifier.none]
        { delimiterCodePoint := ['/'], prefixCodePoint := ['/'] }).1 ∧
      ∀ (eng : List Char → List Char → Option (List (List Char)))
        (caps : List (List Char)),
        (Matcher.matches eng (generateMatcher
            [Part.mk' PartType.fixedText ['x'] PartModifier.none,
             { kind := PartType.segmentWildcard, value := [],
               modifier := PartModifier.none, name := ['n'],
               pre := ['a'], suf := [] },
             Part.mk' PartType.fixedText ['z'] PartModifier.none]
            { delimiterCodePoint := ['/'], prefixCodePoint := ['/'] })
            ['x', 'a', 'q', 'z'] = some caps
          ↔ RMatch r ['x', 'a', 'q', 'z'] caps)) :=
  ⟨⟨by decide, by decide⟩,
    matcher_agreement
      [Part.mk' PartType.fixedText ['x'] PartModifier.none,
       { kind := PartType.segmentWildcard, value := [],
         modifier := PartModifier.none, name := ['n'],
         pre := ['a'], suf := [] },
       Part.mk' PartType.fixedText ['z'] PartModifier.none]
      { delimiterCodePoint := ['/'], prefixCodePoint := ['/'] }
      ['x', 'a', 'q', 'z'] (by decide) (by decide)⟩

/-- Ref: tokenizer.rs `TokenType`.  `End` is rendered `endT` (keyword). -/
inductive TokenType where
  | open
  | close
  | regexp
  | name
  | char
  | escapedChar
  | otherModifier
  | asterisk
  | endT
  | invalidChar
  deriving Repr, DecidableEq

/-- Ref: tokenizer.rs `Token`. -/
structure Token where
  kind : TokenType
  index : Nat
  value : List Char
  deriving Repr, DecidableEq

/-- Ref: tokenizer.rs `TokenizePolicy`. -/
inductive TokenizePolicy where
  | strict
  | lenient
  deriving Repr, DecidableEq

/-- Ref: tokenizer.rs `Tokenizer` (the mutable tokenizer state). -/
structure Tok where
  input : List Char
  policy : TokenizePolicy
  tokenList : List Token
  index : Nat
  nextIndex : Nat
  codePoint : Option Char
  deriving Repr, DecidableEq

/-- Outcome of tokenization: a token list, a strict-mode tokenize error, or
a Rust panic (an `unwrap()` of `None`, i.e. an out-of-bounds code-point
read). -/
inductive TokResult where
  | ok (tokens : List Token)
  | err
  | crashed
  deriving Repr, DecidableEq

/-- Modelled from the spec: tokenizer.rs declares `is_valid_name_codepoint`
with a `todo!()` body, so the predicate is taken from the spec: the first
code point must be an identifier-start (letters, '_', '$'), later ones
identifier-continue (additionally digits).  Only the ASCII fragment of the
Unicode identifier classes is modelled; every input evaluated here is
ASCII. -/
def is_valid_name_codepoint (c : Char) (first : Bool) : Bool :=
  if first then c.isAlpha || c = '_' || c = '$'
  else c.isAlphanum || c = '_' || c = '$'

/-- ASCII test (Rust `char::is_ascii`). -/
def asciiQ (c : Char) : Bool := c.toNat < 128

/-- Ref: tokenizer.rs `get_next_codepoint`: reads the code point at
`next_index` (panics when out of range — `none`) and advances
`next_index`. -/
def getNextCodepoint (t : Tok) : Option Tok :=
  match t.input.get? t.nextIndex with
  | some c => some { t with codePoint := some c, nextIndex := t.nextIndex + 1 }
  | none => none

/-- Ref: tokenizer.rs `add_token`. -/
def addToken (t : Tok) (kind : TokenType) (nextPos valuePos valueLen : Nat) : Tok :=
  { t with
      tokenList := t.tokenList ++
        [{ kind := kind, index := t.index,
           value := (t.input.drop valuePos).take valueLen }],
      index := nextPos }

/-- Ref: tokenizer.rs `add_token_with_default_length`. -/
def addTokenDefaultLen (t : Tok) (kind : TokenType) (nextPos valuePos : Nat) : Tok :=
  addToken t kind nextPos valuePos (nextPos - valuePos)

/-- Ref: tokenizer.rs `add_token_with_default_position_and_length`. -/
def addTokenDefaultPosLen (t : Tok) (kind : TokenType) : Tok :=
  addTokenDefaultLen t kind t.nextIndex t.index

/-- Ref: tokenizer.rs `process_tokenizing_error`: a strict-mode error is
`none`; lenient mode appends an InvalidChar token. -/
def processTokenizingError (t : Tok) (nextPos valuePos : Nat) : Option Tok :=
  if t.policy = TokenizePolicy.strict then none
  else some (addTokenDefaultLen t TokenType.invalidChar nextPos valuePos)

/-- Ref: tokenizer.rs `seek_and_get_next_codepoint`. -/
def seekAndGetNextCodepoint (t : Tok) (idx : Nat) : Option Tok :=
  getNextCodepoint { t with nextIndex := idx }

/-- The name scan of the ':' branch of `tokenize` (tokenizer.rs lines
175-188): returns the updated state and the final `name_pos`. -/
def nameLoop : Nat → Tok → Nat → Nat → Option (Tok × Nat)
  | 0, _, _, _ => none
  | fuel + 1, t, namePos, nameStart =>
      if namePos < t.input.length then
        match seekAndGetNextCodepoint t namePos with
        | none => none
        | some t1 =>
            match t1.codePoint with
            | none => none
            | some c =>
                if is_valid_name_codepoint c (namePos == nameStart) then
                  nameLoop fuel t1 t1.nextIndex nameStart
                else
                  some (t1, namePos)
      else some (t, namePos)

/-- Outcome of the regexp scan of the '(' branch. -/
inductive RegexpScan where
  | crash
  | strictErr
  | errHandled (t : Tok)
  | done (t : Tok) (regexpPos : Nat) (depth : Nat)
  deriving Repr, DecidableEq

/-- One lenient-or-strict error inside the regexp scan
(`process_tokenizing_error(regexp_start, tokenizer.index)`). -/
def regexpScanErr (t : Tok) (rstart : Nat) : RegexpScan :=
  match processTokenizingError t rstart t.index with
  | none => RegexpScan.strictErr
  | some t1 => RegexpScan.errHandled t1

/-- The regexp scan of the '(' branch of `tokenize` (tokenizer.rs lines
200-265). -/
def regexpLoop : Nat → Tok → Nat → Nat → Nat → RegexpScan
  | 0, _, _, _, _ => RegexpScan.crash
  | fuel + 1, t, rpos, rstart, depth =>
      if rpos < t.input.length then
        match seekAndGetNextCodepoint t rpos with
        | none => RegexpScan.crash
        | some t1 =>
            match t1.codePoint with
            | none => RegexpScan.crash
            | some c =>
                if ¬ asciiQ c then regexpScanErr t1 rstart
                else if rpos = rstart ∧ c = '?' then regexpScanErr t1 rstart
                else if c = '\\' then
                  if rpos = t.input.length - 1 then regexpScanErr t1 rstart
                  else
                    match getNextCodepoint t1 with
                    | none => RegexpScan.crash
                    | some t2 =>
                        match t2.codePoint with
                        | none => RegexpScan.crash
                        | some c2 =>
                            if ¬ asciiQ c2 then regexpScanErr t2 rstart
                            else regexpLoop fuel t2 t2.nextIndex rstart depth
                else if c = ')' then
                  if depth - 1 = 0 then RegexpScan.done t1 t1.nextIndex 0
                  else regexpLoop fuel t1 t1.nextIndex rstart (depth - 1)
                else if c = '(' then
                  if rpos = t.input.length - 1 then regexpScanErr t1 rstart
                  else
                    let tempPos := t1.nextIndex
                    match getNextCodepoint t1 with
                    | none => RegexpScan.crash
                    | some t2 =>
                        match t2.codePoint with
                        | none => RegexpScan.crash
                        | some c2 =>
                            if c2 ≠ '?' then regexpScanErr t2 rstart
                            else regexpLoop fuel
                              { t2 with nextIndex := tempPos } tempPos rstart (depth + 1)
                else regexpLoop fuel t1 t1.nextIndex rstart depth
      else RegexpScan.done t rpos depth

/-- Outcome of one iteration body of the tokenize loop. -/
inductive StepRes where
  | cont (t : Tok)
  | halt (r : TokResult)
  deriving Repr, DecidableEq

/-- The unconditional Char emission at the end of the loop body
(tokenizer.rs line 286). -/
def charAdd (t : Tok) : StepRes :=
  StepRes.cont (addTokenDefaultPosLen t TokenType.char)

/-- The '(' branch and the final Char emission (tokenizer.rs lines
200-286); also reachable by fall-through from the ':' branch, which has no
`continue` after emitting a Name token. -/
def parenChar (t : Tok) : StepRes :=
  match t.codePoint with
  | none => StepRes.halt TokResult.crashed
  | some c =>
      if c = '(' then
        let rstart := t.nextIndex
        match regexpLoop (t.input.length + 2) t t.nextIndex rstart 1 with
        | RegexpScan.crash => StepRes.halt TokResult.crashed
        | RegexpScan.strictErr => StepRes.halt TokResult.err
        | RegexpScan.errHandled t2 => StepRes.cont t2
        | RegexpScan.done t2 rpos depth =>
            if depth ≠ 0 then
              match processTokenizingError t2 rstart t2.index with
              | none => StepRes.halt TokResult.err
              | some t3 => StepRes.cont t3
            else
              let rlen := rpos - rstart - 1
              if rlen = 0 then
                match processTokenizingError t2 rstart t2.index with
                | none => StepRes.halt TokResult.err
                | some t3 => StepRes.cont t3
              else
                charAdd (addToken t2 TokenType.regexp rpos rstart rlen)
      else charAdd t

/-- One iteration body of the tokenize loop (tokenizer.rs lines 140-286),
entered with the code point just fetched. -/
def stepBody (t : Tok) : StepRes :=
  match t.codePoint with
  | none => StepRes.halt TokResult.crashed
  | some c =>
      if c = '*' then StepRes.cont (addTokenDefaultPosLen t TokenType.asterisk)
      else if c = '+' ∨ c = '?' then
        StepRes.cont (addTokenDefaultPosLen t TokenType.otherModifier)
      else if c = '\\' then
        if t.index = t.input.length - 1 then
          match processTokenizingError t t.nextIndex t.index with
          | none => StepRes.halt TokResult.err
          | some t2 => StepRes.cont t2
        else
          let escapedIndex := t.nextIndex
          match getNextCodepoint t with
          | none => StepRes.halt TokResult.crashed
          | some t2 =>
              StepRes.cont
                (addTokenDefaultLen t2 TokenType.escapedChar t2.nextIndex escapedIndex)
      else if c = '\x7b' then StepRes.cont (addTokenDefaultPosLen t TokenType.open)
      else if c = '\x7d' then StepRes.cont (addTokenDefaultPosLen t TokenType.close)
      else if c = ':' then
        let nameStart := t.nextIndex
        match nameLoop (t.input.length + 1) t nameStart nameStart with
        | none => StepRes.halt TokResult.crashed
        | some (t2, namePos) =>
            if namePos ≤ nameStart then
              match processTokenizingError t2 nameStart t2.index with
              | none => StepRes.halt TokResult.err
              | some t3 => StepRes.cont t3
            else
              parenChar (addTokenDefaultLen t2 TokenType.name namePos nameStart)
      else parenChar t

/-- The main tokenize loop (tokenizer.rs lines 136-293). -/
def tokenizeLoop : Nat → Tok → TokResult
  | 0, _ => TokResult.crashed
  | fuel + 1, t =>
      if t.index < t.input.length then
        match getNextCodepoint t with
        | none => TokResult.crashed
        | some t1 =>
            match stepBody t1 with
            | StepRes.halt r => r
            | StepRes.cont t2 => tokenizeLoop fuel t2
      else
        TokResult.ok (addTokenDefaultLen t TokenType.endT t.index t.index).tokenList

/-- Ref: tokenizer.rs `tokenize`. -/
def tokenize (input : List Char) (policy : TokenizePolicy) : TokResult :=
  tokenizeLoop (input.length + 1)
    { input := input, policy := policy, tokenList := [], index := 0,
      nextIndex := 0, codePoint := none }

/-- Outcome of pattern parsing: a part list, a parse error, or a Rust
panic. -/
inductive PRes where
  | ok (parts : List Part)
  | err (e : ParseError)
  | crashed
  deriving Repr, DecidableEq

/-- Ref: parser.rs `PatternParser` (the mutable parser state).  The
encoding callback is carried separately. -/
structure PState where
  tokenList : List Token
  segmentWildcardRegexp : List Char
  partList : List Part
  pendingFixedValue : List Char
  index : Nat
  nextNumericName : Nat
  deriving Repr, DecidableEq

/-- Ref: parser.rs `try_consume_token`.  The Rust `assert!(index < len)`
cannot fire on End-terminated token lists; an out-of-range index yields no
token here. -/
def tryConsumeToken (s : PState) (kind : TokenType) : Option Token × PState :=
  match s.tokenList.get? s.index with
  | none => (none, s)
  | some tok =>
      if tok.kind ≠ kind then (none, s)
      else (some tok, { s with index := s.index + 1 })

/-- Ref: parser.rs `try_consume_regexp_or_wildcard_token`. -/
def tryConsumeRegexpOrWildcardToken (s : PState) (nameToken : Option Token) :
    Option Token × PState :=
  let r := tryConsumeToken s TokenType.regexp
  if nameToken.isNone ∧ r.1.isNone then tryConsumeToken r.2 TokenType.asterisk
  else r

/-- Ref: parser.rs `try_consume_modifier_token`. -/
def tryConsumeModifierToken (s : PState) : Option Token × PState :=
  let r := tryConsumeToken s TokenType.otherModifier
  if r.1.isSome then r else tryConsumeToken r.2 TokenType.asterisk

/-- Ref: parser.rs `maybe_add_part_from_pending_fixed_value`. -/
def maybeAddPartFromPendingFixedValue
    (cb : List Char → Except ParseError (List Char)) (s : PState) :
    Except ParseError PState :=
  if s.pendingFixedValue = [] then Except.ok s
  else
    match cb s.pendingFixedValue with
    | Except.error e => Except.error e
    | Except.ok encoded =>
        Except.ok
          { s with
              pendingFixedValue := [],
              partList := s.partList ++
                [Part.mk' PartType.fixedText encoded PartModifier.none] }

/-- Decimal digits of a numeric auto-name (Rust `usize::to_string`). -/
def natToChars (n : Nat) : List Char := (Nat.repr n).toList

/-- Ref: parser.rs `add_part`. -/
def addPart (cb : List Char → Except ParseError (List Char)) (s : PState)
    (pre : List Char) (nameToken regexpOrWildcardToken : Option Token)
    (suf : List Char) (modifierToken : Option Token) : Except ParseError PState :=
  let modifier : PartModifier :=
    match modifierToken with
    | none => PartModifier.none
    | some mt =>
        if mt.value = ['?'] then PartModifier.optional
        else if mt.value = ['*'] then PartModifier.zeroOrMore
        else if mt.value = ['+'] then PartModifier.oneOrMore
        else PartModifier.none
  if nameToken.isNone ∧ regexpOrWildcardToken.isNone ∧ modifier = PartModifier.none
  then
    Except.ok { s with pendingFixedValue := s.pendingFixedValue ++ pre }
  else
    match maybeAddPartFromPendingFixedValue cb s with
    | Except.error e => Except.error e
    | Except.ok s =>
        if nameToken.isNone ∧ regexpOrWildcardToken.isNone then
          if pre = [] then Except.ok s
          else
            match cb pre with
            | Except.error e => Except.error e
            | Except.ok encoded =>
                Except.ok { s with partList := s.partList ++
                  [Part.mk' PartType.fixedText encoded modifier] }
        else
          let regexpValue : List Char :=
            match regexpOrWildcardToken with
            | none => s.segmentWildcardRegexp
            | some rt =>
                if rt.kind = TokenType.asterisk then fullWildcardRegexpValue
                else rt.value
          let kv : PartType × List Char :=
            if regexpValue = s.segmentWildcardRegexp then
              (PartType.segmentWildcard, [])
            else if regexpValue = fullWildcardRegexpValue then
              (PartType.fullWildcard, [])
            else (PartType.regexp, regexpValue)
          let ns : List Char × PState :=
            match nameToken with
            | some nt => (nt.value, s)
            | none =>
                if regexpOrWildcardToken.isSome then
                  (natToChars s.nextNumericName,
                    { s with nextNumericName := s.nextNumericName + 1 })
                else ([], s)
          match cb pre with
          | Except.error e => Except.error e
          | Except.ok encodedPre =>
              match cb suf with
              | Except.error e => Except.error e
              | Except.ok encodedSuf =>
                  Except.ok { ns.2 with partList := ns.2.partList ++
                    [{ kind := kv.1, value := kv.2, modifier := modifier,
                       name := ns.1, pre := encodedPre, suf := encodedSuf }] }

/-- Ref: parser.rs `consume_text`. -/
def consumeText : Nat → PState → List Char → List Char × PState
  | 0, s, acc => (acc, s)
  | fuel + 1, s, acc =>
      let r := tryConsumeToken s TokenType.char
      match r.1 with
      | some tok => consumeText fuel r.2 (acc ++ tok.value)
      | none =>
          let r2 := tryConsumeToken r.2 TokenType.escapedChar
          match r2.1 with
          | some tok => consumeText fuel r2.2 (acc ++ tok.value)
          | none => (acc, r2.2)

/-- Ref: parser.rs `consume_required_token` (failure is
`ParseError::Tokenize`). -/
def consumeRequiredToken (s : PState) (kind : TokenType) :
    Except ParseError PState :=
  let r := tryConsumeToken s kind
  match r.1 with
  | some _ => Except.ok r.2
  | none => Except.error ParseError.tokenize

/-- The main loop of parser.rs `parse_pattern_string` (lines 265-317).
Note the source has no `continue` after the explicit-group `add_part`, so
after a successful group the loop immediately requires the End token. -/
def parseLoop (cb : List Char → Except ParseError (List Char)) (o : Options) :
    Nat → PState → PRes
  | 0, _ => PRes.crashed
  | fuel + 1, s =>
      if s.index < s.tokenList.length then
        let r1 := tryConsumeToken s TokenType.char
        let charToken := r1.1
        let r2 := tryConsumeToken r1.2 TokenType.name
        let nameToken := r2.1
        let r3 := tryConsumeRegexpOrWildcardToken r2.2 nameToken
        let rwToken := r3.1
        let s := r3.2
        if nameToken.isSome ∨ rwToken.isSome then
          let pre0 : List Char := match charToken with
            | some ct => ct.value
            | none => []
          let ps : List Char × PState :=
            if pre0 ≠ [] ∧ pre0 ≠ o.prefixCodePoint then
              ([], { s with pendingFixedValue := s.pendingFixedValue ++ pre0 })
            else (pre0, s)
          match maybeAddPartFromPendingFixedValue cb ps.2 with
          | Except.error e => PRes.err e
          | Except.ok s =>
              let rm := tryConsumeModifierToken s
              match addPart cb rm.2 ps.1 nameToken rwToken [] rm.1 with
              | Except.error e => PRes.err e
              | Except.ok s => parseLoop cb o fuel s
        else
          let rf : Option Token × PState :=
            match charToken with
            | some ct => (some ct, s)
            | none => tryConsumeToken s TokenType.escapedChar
          match rf.1 with
          | some tok =>
              parseLoop cb o fuel
                { rf.2 with pendingFixedValue := rf.2.pendingFixedValue ++ tok.value }
          | none =>
              let ro := tryConsumeToken rf.2 TokenType.open
              let afterOpen : Except ParseError PState :=
                match ro.1 with
                | some _ =>
                    let rp := consumeText (ro.2.tokenList.length + 1) ro.2 []
                    let rn := tryConsumeToken rp.2 TokenType.name
                    let rw := tryConsumeRegexpOrWildcardToken rn.2 rn.1
                    let rs := consumeText (rw.2.tokenList.length + 1) rw.2 []
                    match consumeRequiredToken rs.2 TokenType.close with
                    | Except.error e => Except.error e
                    | Except.ok s2 =>
                        let rm := tryConsumeModifierToken s2
                        addPart cb rm.2 rp.1 rn.1 rw.1 rs.1 rm.1
                | none => Except.ok ro.2
              match afterOpen with
              | Except.error e => PRes.err e
              | Except.ok s2 =>
                  match maybeAddPartFromPendingFixedValue cb s2 with
                  | Except.error e => PRes.err e
                  | Except.ok s3 =>
                      match consumeRequiredToken s3 TokenType.endT with
                      | Except.error e => PRes.err e
                      | Except.ok s4 => parseLoop cb o fuel s4
      else PRes.ok s.partList

/-- Ref: parser.rs `parse_pattern_string`. -/
def parse_pattern_string (input : List Char) (o : Options)
    (cb : List Char → Except ParseError (List Char)) : PRes :=
  match tokenize input TokenizePolicy.strict with
  | TokResult.crashed => PRes.crashed
  | TokResult.err => PRes.err ParseError.tokenize
  | TokResult.ok tokens =>
      parseLoop cb o (tokens.length + 1)
        { tokenList := tokens,
          segmentWildcardRegexp := generate_segment_wildcard_regexp o,
          partList := [], pendingFixedValue := [], index := 0,
          nextNumericName := 0 }

/-- C3 (code bug): the pattern string ":a(x):a(y)" parses successfully into
two non-FixedText parts that share the name "a"; `parse_pattern_string`
performs no duplicate-name check at all, and `ParserError::DuplicateName`
(error.rs) is never constructed anywhere in the sources.  The claim (and
spec §4.B) require compilation to fail with DuplicateName here. -/
theorem duplicate_names_accepted :
    parse_pattern_string (String.toList ":a(x):a(y)") Options.default
        (fun s => Except.ok s)
      = PRes.ok
        [{ kind := PartType.regexp, value := ['x'],
           modifier := PartModifier.none, name := ['a'], pre := [], suf := [] },
         { kind := PartType.regexp, value := ['y'],
           modifier := PartModifier.none, name := ['a'], pre := [], suf := [] }] ∧
    ¬ ([['a'], ['a']] : List (List Char)).Pairwise (· ≠ ·) := by
  constructor
  · rfl
  · decide

/-- The escape set of component.rs `escape_pattern_string`. -/
def patternEscapeSet : List Char :=
  ['+', '*', '?', ':', '\x7b', '\x7d', '(', ')', '\\']

/-- Ref: component.rs `escape_pattern_string` (the ASCII assert is dropped;
behaviour is uniform per char). -/
def escape_pattern_string : List Char → List Char
  | [] => []
  | c :: rest =>
      (if c ∈ patternEscapeSet then ['\\', c] else [c]) ++ escape_pattern_string rest

/-- The canonical-pattern-string chunk of the i-th part, from the loop body
of component.rs `generate_pattern_string` (lines 164-257).  Rust `unwrap`s
on first/last characters are modelled with the same defaults the source
uses where it has one (`unwrap_or_default` is '\x00'); the remaining
`unwrap`s act on strings the parser guarantees non-empty. -/
def partPatternChunk (parts : List Part) (o : Options) (i : Nat) : List Char :=
  match parts.get? i with
  | none => []
  | some p =>
      let prevPart : Option Part := if i = 0 then none else parts.get? (i - 1)
      let nextPart : Option Part := parts.get? (i + 1)
      if p.kind = PartType.fixedText then
        if p.modifier = PartModifier.none then escape_pattern_string p.value
        else
          ['\x7b'] ++ escape_pattern_string p.value ++ ['\x7d'] ++ p.modifier.str
      else
        let customName : Bool := !(p.name.headD '0').isDigit
        let ng0 : Bool :=
          decide (p.suf ≠ []) ||
            (decide (p.pre ≠ []) && decide (p.pre ≠ o.prefixCodePoint))
        let ng1 : Bool :=
          if (!ng0) && customName && decide (p.kind = PartType.segmentWildcard) &&
              decide (p.modifier = PartModifier.none) &&
              (match nextPart with
                | some np => decide (np.pre = []) && decide (np.suf = [])
                | none => false) then
            match nextPart with
            | some np =>
                if np.kind = PartType.fixedText then
                  is_valid_name_codepoint (np.value.headD '\x00') false
                else (np.name.headD '0').isDigit
            | none => ng0
          else ng0
        let ng : Bool :=
          if (!ng1) && decide (p.pre = []) &&
              (match prevPart with
                | some pp =>
                    decide (pp.kind = PartType.fixedText) &&
                      decide ([pp.value.getLastD '\x00'] = o.prefixCodePoint)
                | none => false) then
            true
          else ng1
        (if ng then ['\x7b'] else [])
          ++ escape_pattern_string p.pre
          ++ (if customName then ':' :: p.name else [])
          ++ (match p.kind with
              | PartType.fixedText => []
              | PartType.regexp => ['('] ++ p.value ++ [')']
              | PartType.segmentWildcard =>
                  if customName then []
                  else ['('] ++ generate_segment_wildcard_regexp o ++ [')']
              | PartType.fullWildcard =>
                  if (!customName) &&
                      ((match prevPart with
                        | none => true
                        | some pp =>
                            decide (pp.kind = PartType.fixedText) ||
                              decide (pp.modifier ≠ PartModifier.none)) ||
                        ng || decide (p.pre ≠ [])) then ['*']
                  else ['('] ++ fullWildcardRegexpValue ++ [')'])
          ++ (if decide (p.kind = PartType.segmentWildcard) && customName &&
                decide (p.suf ≠ []) &&
                is_valid_name_codepoint (p.suf.headD '\x00') false
              then ['\\'] else [])
          ++ escape_pattern_string p.suf
          ++ (if ng then ['\x7d'] else [])
          ++ p.modifier.str

/-- Ref: component.rs `generate_pattern_string`. -/
def generate_pattern_string (parts : List Part) (o : Options) : List Char :=
  (List.range parts.length).foldl (fun acc i => acc ++ partPatternChunk parts o i) []

/-- C2 (code bug): the pattern ":a?" parses (with default options and the
identity encoding callback) into the part list [segment wildcard "a";
fixed text "?"] — the '?' is swallowed as a Char token because the
tokenizer's ':' branch leaves `next_index` stale — and the canonical
pattern string generated from that list, ":a\\?", fails to re-parse
entirely (the stale `next_index` turns its backslash into a bare Char
token, leaving an unconsumable OtherModifier token).  The claim requires
re-parsing the canonical string to reproduce an equivalent part list. -/
theorem round_trip_fails :
    parse_pattern_string (String.toList ":a?") Options.default
        (fun s => Except.ok s)
      = PRes.ok
        [{ kind := PartType.segmentWildcard, value := [],
           modifier := PartModifier.none, name := ['a'], pre := [], suf := [] },
         { kind := PartType.fixedText, value := ['?'],
           modifier := PartModifier.none, name := [], pre := [], suf := [] }] ∧
    generate_pattern_string
        [{ kind := PartType.segmentWildcard, value := [],
           modifier := PartModifier.none, name := ['a'], pre := [], suf := [] },
         { kind := PartType.fixedText, value := ['?'],
           modifier := PartModifier.none, name := [], pre := [], suf := [] }]
        Options.default
      = String.toList ":a\\?" ∧
    parse_pattern_string (String.toList ":a\\?") Options.default
        (fun s => Except.ok s)
      = PRes.err ParseError.tokenize :=
  ⟨rfl, rfl, rfl⟩

/-- C8 (code bug): tokenizing the two-character input ":/" with the
Lenient policy panics.  The ':' branch records an InvalidChar token for the
lone ':' but leaves `next_index` one past the already-scanned '/', and the
next loop iteration's `get_next_codepoint` unwraps `None` (an
out-of-bounds read), so tokenization neither returns a token list ending
in an End token nor an error — it crashes. -/
theorem lenient_tokenize_crashes :
    tokenize (String.toList ":/") TokenizePolicy.lenient = TokResult.crashed :=
  rfl

/-- Rust `char::is_ascii_hexdigit`. -/
def isAsciiHexDigit (c : Char) : Bool :=
  c.isDigit || ('a' ≤ c && c ≤ 'f') || ('A' ≤ c && c ≤ 'F')

/-- A code point admitted by the IPv6 hostname canonicalizer. -/
def ipv6HostnameChar (c : Char) : Bool :=
  isAsciiHexDigit c || c = '[' || c = ']' || c = ':'

/-- Rust `char::to_ascii_lowercase`. -/
def asciiLowerChar (c : Char) : Char :=
  if 'A' ≤ c && c ≤ 'Z' then Char.ofNat (c.toNat + 32) else c

/-- Ref: canonicalize_and_process.rs `canonicalize_ipv6_hostname`. -/
def canonicalize_ipv6_hostname (value : List Char) :
    Except ParseError (List Char) :=
  if value.all ipv6HostnameChar then Except.ok (value.map asciiLowerChar)
  else Except.error ParseError.someRandomOtherError

/-- Ref: lib.rs `hostname_pattern_is_ipv6_address`. -/
def hostname_pattern_is_ipv6_address (input : List Char) : Bool :=
  if input.length < 2 then false
  else
    List.isPrefixOf ['['] input || List.isPrefixOf ['\x7b', '['] input ||
      List.isPrefixOf ['\\', '['] input

/-- The IPv6-callback selection of `UrlPattern::parse` (lib.rs lines
257-261): the hostname component is compiled with
`canonicalize_ipv6_hostname` exactly when this is true of the processed
hostname. -/
def hostnameIsIpv6ForCompile (hostname : Option (List Char)) : Bool :=
  (hostname.map hostname_pattern_is_ipv6_address).getD false

/-- C9 counterexample: the one-character hostname pattern "[" starts with
"[" but `UrlPattern::parse` does not select the IPv6 encoding callback for
it (the code requires code-point length at least 2 first). -/
theorem ipv6_detection_counterexample :
    hostnameIsIpv6ForCompile (some ['[']) = false ∧ ['['] <+: ['['] := by
  constructor
  · rfl
  · exact ⟨[], rfl⟩

/-- C9 as amended: `UrlPattern::parse` compiles the hostname with the IPv6
encoding callback (which accepts only ASCII hex digits and '[', ']', ':',
and ASCII-lowercases the input) if and only if the hostname pattern has
length at least 2 and starts with "[", "{[", or "\[". -/
theorem ipv6_detection_amended (input v w : List Char) :
    (hostnameIsIpv6ForCompile (some input) = true ↔
      2 ≤ input.length ∧
        (['['] <+: input ∨ ['\x7b', '['] <+: input ∨ ['\\', '['] <+: input)) ∧
    (canonicalize_ipv6_hostname v = Except.ok w ↔
      (∀ c ∈ v, ipv6HostnameChar c = true) ∧ w = v.map asciiLowerChar) := by
  constructor
  · simp only [hostnameIsIpv6ForCompile, Option.map_some', Option.getD_some,
      hostname_pattern_is_ipv6_address]
    by_cases hlen : input.length < 2
    · rw [if_pos hlen]
      simp only [Bool.false_eq_true, false_iff]
      rintro ⟨h2, _⟩
      omega
    · rw [if_neg hlen]
      simp only [Bool.or_eq_true, List.isPrefixOf_iff_prefix]
      constructor
      · rintro (h | h)
        · rcases h with h | h
          · exact ⟨by omega, Or.inl h⟩
          · exact ⟨by omega, Or.inr (Or.inl h)⟩
        · exact ⟨by omega, Or.inr (Or.inr h)⟩
      · rintro ⟨_, h | h | h⟩
        · exact Or.inl (Or.inl h)
        · exact Or.inl (Or.inr h)
        · exact Or.inr h
  · unfold canonicalize_ipv6_hostname
    by_cases hall : v.all ipv6HostnameChar
    · rw [if_pos hall]
      simp only [Except.ok.injEq]
      constructor
      · intro h
        exact ⟨fun c hc => List.all_eq_true.mp hall c hc, h.symm⟩
      · rintro ⟨_, rfl⟩
        rfl
    · rw [if_neg hall]
      constructor
      · intro h
        exact absurd h (by simp)
      · rintro ⟨hv, _⟩
        exact absurd (List.all_eq_true.mpr fun c hc => hv c hc) hall

/-- Ref: canonicalize_and_process.rs `ProcessType`. -/
inductive ProcessType where
  | pattern
  | url
  deriving Repr, DecidableEq

/-- Modelled from the spec: the fields of a parsed base URL that
`UrlPatternInit::process` reads (scheme, username, password, host, port,
pathname, query, fragment, and the cannot-be-a-base flag).  URL parsing
itself lives in the external `url` crate. -/
structure BaseUrl where
  scheme : List Char
  username : List Char
  password : Option (List Char)
  hostStr : Option (List Char)
  port : List Char
  pathname : List Char
  query : Option (List Char)
  fragment : Option (List Char)
  cannotBeABase : Bool
  deriving Repr, DecidableEq

/-- Ref: lib.rs `UrlPatternInit`. -/
structure UrlPatternInit where
  protocol : Option (List Char)
  username : Option (List Char)
  password : Option (List Char)
  hostname : Option (List Char)
  port : Option (List Char)
  pathname : Option (List Char)
  search : Option (List Char)
  hash : Option (List Char)
  baseUrl : Option BaseUrl
  deriving Repr, DecidableEq

/-- Modelled from the spec: the canonicalization callbacks of
canonicalize_and_process.rs, whose bodies delegate to the external `url`
crate.  The contract (spec §6): each takes a UTF-8 string and returns a
canonicalized ASCII string or fails; the port canonicalizer also receives
an optional protocol hint. -/
structure Canon where
  canonicalizeProtocol : List Char → Except ParseError (List Char)
  canonicalizeUsername : List Char → Except ParseError (List Char)
  canonicalizePassword : List Char → Except ParseError (List Char)
  canonicalizeHostname : List Char → Except ParseError (List Char)
  canonicalizePort : List Char → Option (List Char) → Except ParseError (List Char)
  canonicalizePathname : List Char → Except ParseError (List Char)
  canonicalizeCannotBase : List Char → Except ParseError (List Char)
  canonicalizeSearch : List Char → Except ParseError (List Char)
  canonicalizeHash : List Char → Except ParseError (List Char)

/-- Ref: canonicalize_and_process.rs `is_special_scheme`. -/
def is_special_scheme (scheme : List Char) : Bool :=
  decide (scheme = String.toList "http") || decide (scheme = String.toList "https") ||
    decide (scheme = String.toList "ws") || decide (scheme = String.toList "wss") ||
    decide (scheme = String.toList "ftp") || decide (scheme = String.toList "file")

/-- Ref: canonicalize_and_process.rs `special_scheme_default_port`. -/
def special_scheme_default_port (scheme : List Char) : Option (List Char) :=
  if scheme = String.toList "http" then some (String.toList "80")
  else if scheme = String.toList "https" then some (String.toList "443")
  else if scheme = String.toList "ws" then some (String.toList "80")
  else if scheme = String.toList "wss" then some (String.toList "443")
  else if scheme = String.toList "ftp" then some (String.toList "21")
  else none

/-- Ref: canonicalize_and_process.rs `process_protocol_init`
(`strip_suffix(':')` then kind dispatch). -/
def process_protocol_init (c : Canon) (value : List Char) (kind : ProcessType) :
    Except ParseError (List Char) :=
  let stripped := if value.getLast? = some ':' then value.dropLast else value
  if kind = ProcessType.pattern then Except.ok stripped
  else c.canonicalizeProtocol stripped

/-- Ref: canonicalize_and_process.rs `process_username_init`. -/
def process_username_init (c : Canon) (value : List Char) (kind : ProcessType) :
    Except ParseError (List Char) :=
  if kind = ProcessType.pattern then Except.ok value else c.canonicalizeUsername value

/-- Ref: canonicalize_and_process.rs `process_password_init`. -/
def process_password_init (c : Canon) (value : List Char) (kind : ProcessType) :
    Except ParseError (List Char) :=
  if kind = ProcessType.pattern then Except.ok value else c.canonicalizePassword value

/-- Ref: canonicalize_and_process.rs `process_hostname_init`. -/
def process_hostname_init (c : Canon) (value : List Char) (kind : ProcessType) :
    Except ParseError (List Char) :=
  if kind = ProcessType.pattern then Except.ok value else c.canonicalizeHostname value

/-- Ref: canonicalize_and_process.rs `process_port_init`. -/
def process_port_init (c : Canon) (portValue : List Char)
    (protocolValue : Option (List Char)) (kind : ProcessType) :
    Except ParseError (List Char) :=
  if kind = ProcessType.pattern then Except.ok portValue
  else c.canonicalizePort portValue protocolValue

/-- Ref: canonicalize_and_process.rs `process_pathname_init`. -/
def process_pathname_init (c : Canon) (pathnameValue : List Char)
    (protocolValue : Option (List Char)) (kind : ProcessType) :
    Except ParseError (List Char) :=
  if kind = ProcessType.pattern then Except.ok pathnameValue
  else
    match protocolValue with
    | some protocol =>
        if protocol = [] || is_special_scheme protocol then
          c.canonicalizePathname pathnameValue
        else c.canonicalizeCannotBase pathnameValue
    | none => c.canonicalizeCannotBase pathnameValue

/-- Ref: canonicalize_and_process.rs `process_search_init`. -/
def process_search_init (c : Canon) (value : List Char) (kind : ProcessType) :
    Except ParseError (List Char) :=
  let stripped := if value.head? = some '?' then value.drop 1 else value
  if kind = ProcessType.pattern then Except.ok stripped
  else c.canonicalizeSearch stripped

/-- Ref: canonicalize_and_process.rs `process_hash_init`. -/
def process_hash_init (c : Canon) (value : List Char) (kind : ProcessType) :
    Except ParseError (List Char) :=
  let stripped := if value.head? = some '#' then value.drop 1 else value
  if kind = ProcessType.pattern then Except.ok stripped
  else c.canonicalizeHash stripped

/-- Ref: lib.rs `is_absolute_pathname`. -/
def is_absolute_pathname (input : List Char) (kind : ProcessType) : Bool :=
  if input = [] then false
  else if input.head? = some '/' then true
  else if kind = ProcessType.url then false
  else if input.length < 2 then false
  else
    List.isPrefixOf ['\\', '/'] input || List.isPrefixOf ['\x7b', '/'] input

/-- Rust `str::rfind('/')` as a code-point index. -/
def rfindSlash (l : List Char) : Option Nat :=
  match l.reverse.findIdx? (fun c => c = '/') with
  | some j => some (l.length - 1 - j)
  | none => none

/-- The base-URL seeding step of `UrlPatternInit::process` (lib.rs lines
79-96). -/
def seedFromBase (r : UrlPatternInit) (b : Option BaseUrl) : UrlPatternInit :=
  match b with
  | none => r
  | some burl =>
      { r with
          protocol := some burl.scheme,
          username := some burl.username,
          password := some (burl.password.getD []),
          hostname := some (burl.hostStr.getD []),
          port := some burl.port,
          pathname := some burl.pathname,
          search := some (burl.query.getD []),
          hash := some (burl.fragment.getD []) }

/-- The protocol step of `UrlPatternInit::process` (lib.rs lines 98-102). -/
def applyProtocol (c : Canon) (i : UrlPatternInit) (kind : ProcessType)
    (r : UrlPatternInit) : Except ParseError UrlPatternInit :=
  match i.protocol with
  | none => Except.ok r
  | some v =>
      match process_protocol_init c v kind with
      | Except.error e => Except.error e
      | Except.ok x => Except.ok { r with protocol := some x }

/-- The username step (lib.rs lines 103-107). -/
def applyUsername (c : Canon) (i : UrlPatternInit) (kind : ProcessType)
    (r : UrlPatternInit) : Except ParseError UrlPatternInit :=
  match i.username with
  | none => Except.ok r
  | some v =>
      match process_username_init c v kind with
      | Except.error e => Except.error e
      | Except.ok x => Except.ok { r with username := some x }

/-- The password step (lib.rs lines 108-112). -/
def applyPassword (c : Canon) (i : UrlPatternInit) (kind : ProcessType)
    (r : UrlPatternInit) : Except ParseError UrlPatternInit :=
  match i.password with
  | none => Except.ok r
  | some v =>
      match process_password_init c v kind with
      | Except.error e => Except.error e
      | Except.ok x => Except.ok { r with password := some x }

/-- The hostname step (lib.rs lines 113-117). -/
def applyHostname (c : Canon) (i : UrlPatternInit) (kind : ProcessType)
    (r : UrlPatternInit) : Except ParseError UrlPatternInit :=
  match i.hostname with
  | none => Except.ok r
  | some v =>
      match process_hostname_init c v kind with
      | Except.error e => Except.error e
      | Except.ok x => Except.ok { r with hostname := some x }

/-- The port step (lib.rs lines 118-124); the protocol hint is the result
record's (possibly rewritten) protocol. -/
def applyPort (c : Canon) (i : UrlPatternInit) (kind : ProcessType)
    (r : UrlPatternInit) : Except ParseError UrlPatternInit :=
  match i.port with
  | none => Except.ok r
  | some v =>
      match process_port_init c v r.protocol kind with
      | Except.error e => Except.error e
      | Except.ok x => Except.ok { r with port := some x }

/-- The pathname step (lib.rs lines 125-147): optional joining with the
base URL's directory prefix, then kind dispatch against the result
record's protocol. -/
def applyPathname (c : Canon) (i : UrlPatternInit) (kind : ProcessType)
    (r : UrlPatternInit) : Except ParseError UrlPatternInit :=
  match i.pathname with
  | none => Except.ok r
  | some v =>
      let v1 : List Char :=
        match i.baseUrl with
        | some b =>
            if (!b.cannotBeABase) && (!is_absolute_pathname v kind) then
              match rfindSlash b.pathname with
              | some idx => b.pathname.take (idx + 1) ++ v
              | none => v
            else v
        | none => v
      match process_pathname_init c v1 r.protocol kind with
      | Except.error e => Except.error e
      | Except.ok x => Except.ok { r with pathname := some x }

/-- The search step (lib.rs lines 148-152). -/
def applySearch (c : Canon) (i : UrlPatternInit) (kind : ProcessType)
    (r : UrlPatternInit) : Except ParseError UrlPatternInit :=
  match i.search with
  | none => Except.ok r
  | some v =>
      match process_search_init c v kind with
      | Except.error e => Except.error e
      | Except.ok x => Except.ok { r with search := some x }

/-- The hash step (lib.rs lines 153-156). -/
def applyHash (c : Canon) (i : UrlPatternInit) (kind : ProcessType)
    (r : UrlPatternInit) : Except ParseError UrlPatternInit :=
  match i.hash with
  | none => Except.ok r
  | some v =>
      match process_hash_init c v kind with
      | Except.error e => Except.error e
      | Except.ok x => Except.ok { r with hash := some x }

/-- Ref: lib.rs `UrlPatternInit::process`: seed the result from the eight
prior values and the optional base URL, then rewrite exactly the fields
present on the init. -/
def UrlPatternInit.process (c : Canon) (i : UrlPatternInit) (kind : ProcessType)
    (protocol username password hostname port pathname search hash :
      Option (List Char)) : Except ParseError UrlPatternInit :=
  let r0 : UrlPatternInit :=
    { protocol := protocol, username := username, password := password,
      hostname := hostname, port := port, pathname := pathname,
      search := search, hash := hash, baseUrl := none }
  let r1 := seedFromBase r0 i.baseUrl
  (applyProtocol c i kind r1).bind fun r2 =>
  (applyUsername c i kind r2).bind fun r3 =>
  (applyPassword c i kind r3).bind fun r4 =>
  (applyHostname c i kind r4).bind fun r5 =>
  (applyPort c i kind r5).bind fun r6 =>
  (applyPathname c i kind r6).bind fun r7 =>
  (applySearch c i kind r7).bind fun r8 =>
  (applyHash c i kind r8).map fun r9 => r9

theorem pathname_step_ok {c : Canon} {v1 : List Char} {pr : Option (List Char)}
    {kind : ProcessType} {r r' : UrlPatternInit}
    (h : (match process_pathname_init c v1 pr kind with
      | Except.error e => Except.error e
      | Except.ok x => Except.ok { r with pathname := some x }) = Except.ok r') :
    r' = { r with pathname := r'.pathname } := by
  cases hq : process_pathname_init c v1 pr kind with
  | error e => rw [hq] at h; exact Except.noConfusion h
  | ok x => rw [hq] at h; cases h; rfl

theorem applyProtocol_shape (c : Canon) (i : UrlPatternInit) (kind : ProcessType)
    (r r' : UrlPatternInit) (h : applyProtocol c i kind r = Except.ok r') :
    r' = { r with protocol := r'.protocol } := by
  unfold applyProtocol at h
  repeat' split at h
  all_goals first
    | exact Except.noConfusion h
    | (cases h; rfl)

theorem applyUsername_shape (c : Canon) (i : UrlPatternInit) (kind : ProcessType)
    (r r' : UrlPatternInit) (h : applyUsername c i kind r = Except.ok r') :
    r' = { r with username := r'.username } := by
  unfold applyUsername at h
  repeat' split at h
  all_goals first
    | exact Except.noConfusion h
    | (cases h; rfl)

theorem applyPassword_shape (c : Canon) (i : UrlPatternInit) (kind : ProcessType)
    (r r' : UrlPatternInit) (h : applyPassword c i kind r = Except.ok r') :
    r' = { r with password := r'.password } := by
  unfold applyPassword at h
  repeat' split at h
  all_goals first
    | exact Except.noConfusion h
    | (cases h; rfl)

theorem applyHostname_shape (c : Canon) (i : UrlPatternInit) (kind : ProcessType)
    (r r' : UrlPatternInit) (h : applyHostname c i kind r = Except.ok r') :
    r' = { r with hostname := r'.hostname } := by
  unfold applyHostname at h
  repeat' split at h
  all_goals first
    | exact Except.noConfusion h
    | (cases h; rfl)

theorem applyPort_shape (c : Canon) (i : UrlPatternInit) (kind : ProcessType)
    (r r' : UrlPatternInit) (h : applyPort c i kind r = Except.ok r') :
    r' = { r with port := r'.port } := by
  unfold applyPort at h
  repeat' split at h
  all_goals first
    | exact Except.noConfusion h
    | (cases h; rfl)

theorem applyPathname_shape (c : Canon) (i : UrlPatternInit) (kind : ProcessType)
    (r r' : UrlPatternInit) (h : applyPathname c i kind r = Except.ok r') :
    r' = { r with pathname := r'.pathname } := by
  unfold applyPathname at h
  repeat' split at h
  all_goals first
    | exact Except.noConfusion h
    | (cases h; rfl)
    | exact pathname_step_ok h

theorem applySearch_shape (c : Canon) (i : UrlPatternInit) (kind : ProcessType)
    (r r' : UrlPatternInit) (h : applySearch c i kind r = Except.ok r') :
    r' = { r with search := r'.search } := by
  unfold applySearch at h
  repeat' split at h
  all_goals first
    | exact Except.noConfusion h
    | (cases h; rfl)

theorem applyHash_shape (c : Canon) (i : UrlPatternInit) (kind : ProcessType)
    (r r' : UrlPatternInit) (h : applyHash c i kind r = Except.ok r') :
    r' = { r with hash := r'.hash } := by
  unfold applyHash at h
  repeat' split at h
  all_goals first
    | exact Except.noConfusion h
    | (cases h; rfl)

theorem applyProtocol_none (c : Canon) (i : UrlPatternInit) (kind : ProcessType)
    (r : UrlPatternInit) (h : i.protocol = none) :
    applyProtocol c i kind r = Except.ok r := by
  simp [applyProtocol, h]

theorem applyUsername_none (c : Canon) (i : UrlPatternInit) (kind : ProcessType)
    (r : UrlPatternInit) (h : i.username = none) :
    applyUsername c i kind r = Except.ok r := by
  simp [applyUsername, h]

theorem applyPassword_none (c : Canon) (i : UrlPatternInit) (kind : ProcessType)
    (r : UrlPatternInit) (h : i.password = none) :
    applyPassword c i kind r = Except.ok r := by
  simp [applyPassword, h]

theorem applyHostname_none (c : Canon) (i : UrlPatternInit) (kind : ProcessType)
    (r : UrlPatternInit) (h : i.hostname = none) :
    applyHostname c i kind r = Except.ok r := by
  simp [applyHostname, h]

theorem applyPort_none (c : Canon) (i : UrlPatternInit) (kind : ProcessType)
    (r : UrlPatternInit) (h : i.port = none) :
    applyPort c i kind r = Except.ok r := by
  simp [applyPort, h]

theorem applyPathname_none (c : Canon) (i : UrlPatternInit) (kind : ProcessType)
    (r : UrlPatternInit) (h : i.pathname = none) :
    applyPathname c i kind r = Except.ok r := by
  simp [applyPathname, h]

theorem applySearch_none (c : Canon) (i : UrlPatternInit) (kind : ProcessType)
    (r : UrlPatternInit) (h : i.search = none) :
    applySearch c i kind r = Except.ok r := by
  simp [applySearch, h]

theorem applyHash_none (c : Canon) (i : UrlPatternInit) (kind : ProcessType)
    (r : UrlPatternInit) (h : i.hash = none) :
    applyHash c i kind r = Except.ok r := by
  simp [applyHash, h]

/-- C10: For every init whose base URL is absent and every choice of the
eight prior component values, a successful `UrlPatternInit::process` leaves
every component field whose init field is None equal to the prior value
passed in for it; only fields present on the init are rewritten. -/
theorem process_frame (c : Canon) (i : UrlPatternInit) (kind : ProcessType)
    (protocol username password hostname port pathname search hash :
      Option (List Char)) (r : UrlPatternInit)
    (hbase : i.baseUrl = none)
    (h : UrlPatternInit.process c i kind protocol username password hostname
      port pathname search hash = Except.ok r) :
    (i.protocol = none → r.protocol = protocol) ∧
    (i.username = none → r.username = username) ∧
    (i.password = none → r.password = password) ∧
    (i.hostname = none → r.hostname = hostname) ∧
    (i.port = none → r.port = port) ∧
    (i.pathname = none → r.pathname = pathname) ∧
    (i.search = none → r.search = search) ∧
    (i.hash = none → r.hash = hash) := by
  unfold UrlPatternInit.process at h
  rw [hbase] at h
  simp only [seedFromBase] at h
  cases h2 : applyProtocol c i kind
      { protocol := protocol, username := username, password := password,
        hostname := hostname, port := port, pathname := pathname,
        search := search, hash := hash, baseUrl := none } with
  | error e => rw [h2] at h; exact absurd h (by simp [Except.bind])
  | ok r2 =>
  rw [h2] at h
  simp only [Except.bind] at h
  cases h3 : applyUsername c i kind r2 with
  | error e => rw [h3] at h; exact absurd h (by simp [Except.bind])
  | ok r3 =>
  rw [h3] at h
  simp only [Except.bind] at h
  cases h4 : applyPassword c i kind r3 with
  | error e => rw [h4] at h; exact absurd h (by simp [Except.bind])
  | ok r4 =>
  rw [h4] at h
  simp only [Except.bind] at h
  cases h5 : applyHostname c i kind r4 with
  | error e => rw [h5] at h; exact absurd h (by simp [Except.bind])
  | ok r5 =>
  rw [h5] at h
  simp only [Except.bind] at h
  cases h6 : applyPort c i kind r5 with
  | error e => rw [h6] at h; exact absurd h (by simp [Except.bind])
  | ok r6 =>
  rw [h6] at h
  simp only [Except.bind] at h
  cases h7 : applyPathname c i kind r6 with
  | error e => rw [h7] at h; exact absurd h (by simp [Except.bind])
  | ok r7 =>
  rw [h7] at h
  simp only [Except.bind] at h
  cases h8 : applySearch c i kind r7 with
  | error e => rw [h8] at h; exact absurd h (by simp [Except.bind])
  | ok r8 =>
  rw [h8] at h
  simp only [Except.bind] at h
  cases h9 : applyHash c i kind r8 with
  | error e => rw [h9] at h; exact absurd h (by simp [Except.map])
  | ok r9 =>
  rw [h9] at h
  simp only [Except.map] at h
  have hr : r = r9 := by
    cases h
    rfl
  subst hr
  have S2 := applyProtocol_shape c i kind _ _ h2
  have S3 := applyUsername_shape c i kind _ _ h3
  have S4 := applyPassword_shape c i kind _ _ h4
  have S5 := applyHostname_shape c i kind _ _ h5
  have S6 := applyPort_shape c i kind _ _ h6
  have S7 := applyPathname_shape c i kind _ _ h7
  have S8 := applySearch_shape c i kind _ _ h8
  have S9 := applyHash_shape c i kind _ _ h9
  refine ⟨?_, ?_, ?_, ?_, ?_, ?_, ?_, ?_⟩
  · intro hn
    have e2 := Except.ok.inj ((applyProtocol_none c i kind _ hn).symm.trans h2)
    rw [S9, S8, S7, S6, S5, S4, S3, ← e2]
  · intro hn
    have e3 := Except.ok.inj ((applyUsername_none c i kind r2 hn).symm.trans h3)
    rw [S9, S8, S7, S6, S5, S4, ← e3, S2]
  · intro hn
    have e4 := Except.ok.inj ((applyPassword_none c i kind r3 hn).symm.trans h4)
    rw [S9, S8, S7, S6, S5, ← e4, S3, S2]
  · intro hn
    have e5 := Except.ok.inj ((applyHostname_none c i kind r4 hn).symm.trans h5)
    rw [S9, S8, S7, S6, ← e5, S4, S3, S2]
  · intro hn
    have e6 := Except.ok.inj ((applyPort_none c i kind r5 hn).symm.trans h6)
    rw [S9, S8, S7, ← e6, S5, S4, S3, S2]
  · intro hn
    have e7 := Except.ok.inj ((applyPathname_none c i kind r6 hn).symm.trans h7)
    rw [S9, S8, ← e7, S6, S5, S4, S3, S2]
  · intro hn
    have e8 := Except.ok.inj ((applySearch_none c i kind r7 hn).symm.trans h8)
    rw [S9, ← e8, S7, S6, S5, S4, S3, S2]
  · intro hn
    have e9 := Except.ok.inj ((applyHash_none c i kind r8 hn).symm.trans h9)
    rw [← e9, S8, S7, S6, S5, S4, S3, S2]

/-- A concrete callback record for evaluating the init processor: every
canonicalization callback is the identity. -/
def processFrameCanon : Canon :=
  { canonicalizeProtocol := Except.ok
    canonicalizeUsername := Except.ok
    canonicalizePassword := Except.ok
    canonicalizeHostname := Except.ok
    canonicalizePort := fun v _ => Except.ok v
    canonicalizePathname := Except.ok
    canonicalizeCannotBase := Except.ok
    canonicalizeSearch := Except.ok
    canonicalizeHash := Except.ok }

/-- A concrete init: only the hash field is present, no base URL. -/
def processFrameInit : UrlPatternInit :=
  { protocol := none, username := none, password := none, hostname := none,
    port := none, pathname := none, search := none, hash := some ['#', 'z'],
    baseUrl := none }

/-- The record the init processor yields on `processFrameInit`: every prior
except the hash survives, and the hash is rewritten (its '#' stripped). -/
def processFrameRes : UrlPatternInit :=
  { protocol := some ['p'], username := some ['u'], password := some ['w'],
    hostname := some ['h'], port := some ['8'], pathname := some ['/'],
    search := some ['s'], hash := some ['z'], baseUrl := none }

theorem process_frame_witness :
    (processFrameInit.protocol = none → processFrameRes.protocol = some ['p']) ∧
    (processFrameInit.username = none → processFrameRes.username = some ['u']) ∧
    (processFrameInit.password = none → processFrameRes.password = some ['w']) ∧
    (processFrameInit.hostname = none → processFrameRes.hostname = some ['h']) ∧
    (processFrameInit.port = none → processFrameRes.port = some ['8']) ∧
    (processFrameInit.pathname = none → processFrameRes.pathname = some ['/']) ∧
    (processFrameInit.search = none → processFrameRes.search = some ['s']) ∧
    (processFrameInit.hash = none → processFrameRes.hash = some ['g']) :=
  process_frame processFrameCanon processFrameInit ProcessType.pattern
    (some ['p']) (some ['u']) (some ['w']) (some ['h']) (some ['8'])
    (some ['/']) (some ['s']) (some ['g']) processFrameRes rfl rfl

/-- Ref: lib.rs `UrlPattern::parse` lines 241-249: after init processing, if
the processed protocol is a special scheme and the processed port equals that
scheme's default port, the port field is replaced by the empty string. -/
def elideDefaultPort (q : UrlPatternInit) : UrlPatternInit :=
  match q.protocol with
  | some protocol =>
      if is_special_scheme protocol then
        if special_scheme_default_port protocol = q.port then
          { q with port := some [] }
        else q
      else q
  | none => q

/-- Ref: lib.rs `UrlPattern::parse` lines 229-249: the processed init that
`parse` hands to component compilation — `UrlPatternInit::process` with kind
Pattern and all eight prior values None, followed by default-port elision. -/
def processedInitForParse (c : Canon) (i : UrlPatternInit) :
    Except ParseError UrlPatternInit :=
  (UrlPatternInit.process c i ProcessType.pattern none none none none none
    none none none).map elideDefaultPort

/-- C6: whenever init processing during `UrlPattern::parse` succeeds with a
processed protocol that is a special scheme and a processed port equal to that
scheme's default port, the init that reaches component compilation carries the
empty string as its port pattern. -/
theorem default_port_elision (c : Canon) (i q : UrlPatternInit)
    (proto : List Char)
    (hq : UrlPatternInit.process c i ProcessType.pattern none none none none
      none none none none = Except.ok q)
    (hp : q.protocol = some proto)
    (hs : is_special_scheme proto = true)
    (hd : special_scheme_default_port proto = q.port) :
    processedInitForParse c i = Except.ok (elideDefaultPort q) ∧
    (elideDefaultPort q).port = some [] := by
  constructor
  · unfold processedInitForParse
    rw [hq]
    rfl
  · unfold elideDefaultPort
    rw [hp]
    simp [hs, hd]

/-- A concrete init for the default-port elision: explicit http protocol and
explicit port 80. -/
def elisionInit : UrlPatternInit :=
  { protocol := some (String.toList "http"), username := none,
    password := none, hostname := none, port := some (String.toList "80"),
    pathname := none, search := none, hash := none, baseUrl := none }

/-- What init processing yields on `elisionInit` (Pattern kind leaves both
fields as written). -/
def elisionProcessed : UrlPatternInit :=
  { protocol := some (String.toList "http"), username := none,
    password := none, hostname := none, port := some (String.toList "80"),
    pathname := none, search := none, hash := none, baseUrl := none }

theorem default_port_elision_witness :
    processedInitForParse processFrameCanon elisionInit =
      Except.ok (elideDefaultPort elisionProcessed) ∧
    (elideDefaultPort elisionProcessed).port = some [] :=
  default_port_elision processFrameCanon elisionInit elisionProcessed
    (String.toList "http") rfl rfl (by decide) (by decide)

/-- Ref: lib.rs `UrlPattern::matches` lines 382-429 for Init input: the init
is processed with kind Url and all eight prior values the empty string; a
processing failure returns Ok(None), and on success the eight component
regexes run — abstracted here as `runComponents`, since the backing RegExp
engine (regexp.rs) is absent from src/. -/
def UrlPattern.matchesInit {β : Type} (c : Canon)
    (runComponents : UrlPatternInit → Option β) (init : UrlPatternInit) :
    Except ParseError (Option β) :=
  match UrlPatternInit.process c init ProcessType.url (some []) (some [])
      (some []) (some []) (some []) (some []) (some []) (some []) with
  | Except.error _ => Except.ok none
  | Except.ok applyResult => Except.ok (runComponents applyResult)

/-- Ref: lib.rs `UrlPattern::test` lines 366-368:
`self.matches(input).map(is_some)`. -/
def UrlPattern.testInit {β : Type} (c : Canon)
    (runComponents : UrlPatternInit → Option β) (init : UrlPatternInit) :
    Except ParseError Bool :=
  (UrlPattern.matchesInit c runComponents init).map Option.isSome

/-- C7: if match-time processing of an init record fails canonicalization,
exec/matches returns Ok(None) and test returns Ok(false) — a successful
no-match result, not an error — whatever the component regexes would do. -/
theorem match_time_init_failure {β : Type} (c : Canon)
    (runComponents : UrlPatternInit → Option β) (init : UrlPatternInit)
    (e : ParseError)
    (hfail : UrlPatternInit.process c init ProcessType.url (some []) (some [])
      (some []) (some []) (some []) (some []) (some []) (some []) =
      Except.error e) :
    UrlPattern.matchesInit c runComponents init = Except.ok none ∧
    UrlPattern.testInit c runComponents init = Except.ok false := by
  constructor
  · unfold UrlPattern.matchesInit
    rw [hfail]
  · unfold UrlPattern.testInit UrlPattern.matchesInit
    rw [hfail]
    rfl

/-- A callback record whose hash canonicalizer always fails; all other
callbacks are the identity. -/
def failCanon : Canon :=
  { canonicalizeProtocol := Except.ok
    canonicalizeUsername := Except.ok
    canonicalizePassword := Except.ok
    canonicalizeHostname := Except.ok
    canonicalizePort := fun v _ => Except.ok v
    canonicalizePathname := Except.ok
    canonicalizeCannotBase := Except.ok
    canonicalizeSearch := Except.ok
    canonicalizeHash := fun _ => Except.error ParseError.url }

/-- A match-time init whose hash field is present, so processing it with
`failCanon` fails canonicalization. -/
def failInit : UrlPatternInit :=
  { protocol := none, username := none, password := none, hostname := none,
    port := none, pathname := none, search := none, hash := some ['x'],
    baseUrl := none }

theorem match_time_init_failure_witness :
    UrlPattern.matchesInit failCanon (fun _ => (none : Option Unit)) failInit =
      Except.ok none ∧
    UrlPattern.testInit failCanon (fun _ => (none : Option Unit)) failInit =
      Except.ok false :=
  match_time_init_failure failCanon (fun _ => (none : Option Unit)) failInit
    ParseError.url rfl

end URLPattern
